import Mathlib

/-!
# rulegen: the generator of `tools/rulegen/main.go`

A shallow embedding of the emitters of `main.go` and the properties of the
files they produce.  Go strings are embedded as `String`; every loop over a
slice is a `List.foldl` over the writer state, in the order of the source.
-/

set_option maxRecDepth 100000

namespace Rulegen

/-! ## Go standard-library helpers used by `main.go` -/

/-- Pieces of a character list between the occurrences of `sep`
(`strings.Split` with a one-character separator): there is always one more
piece than there are separators. -/
def splitOnChar (sep : Char) : List Char → List (List Char)
  | [] => [[]]
  | c :: cs =>
    if c = sep then [] :: splitOnChar sep cs
    else
      match splitOnChar sep cs with
      | [] => [[c]]
      | seg :: segs => (c :: seg) :: segs

/-- Go `strings.Split(s, sep)` for a separator of one character. -/
def stringsSplit (s : String) (sep : Char) : List String :=
  (splitOnChar sep s.data).map String.mk

/-- Go `strings.Repeat(s, n)`. -/
def stringsRepeat (s : String) : Nat → String
  | 0 => ""
  | n + 1 => s ++ stringsRepeat s n

/-- Go `strings.Join(elems, sep)`. -/
def stringsJoin : List String → String → String
  | [], _ => ""
  | [a], _ => a
  | a :: b :: rest, sep => a ++ sep ++ stringsJoin (b :: rest) sep

/-- Go `sort.Strings`: ascending order of the byte-wise lexicographic
comparison of strings (on valid UTF-8 this is the order of the code points). -/
def sortStrings (l : List String) : List String :=
  l.insertionSort (fun a b => a.data ≤ b.data)

/-- Number of occurrences of the character `c` in `s`. -/
def countChar (c : Char) (s : String) : Nat :=
  s.data.count c

/-- A string that holds no line break. -/
def OneLine (s : String) : Prop :=
  ¬ '\n' ∈ s.data

instance (s : String) : Decidable (OneLine s) := by
  unfold OneLine; infer_instance

/-! ## The line writer -/

/-- Modelled from the spec: the line writer (`LineWriter`, declared outside
`main.go`) accumulates an ordered sequence of text lines. -/
structure LineWriter where
  lines : List String := []
deriving DecidableEq, Repr

/-- Modelled from the spec: `write(format, args...)` appends one formatted
line; multi-line strings are split into individual lines so the internal
sequence is always one logical line per entry.  The argument is the string
already formatted. -/
def LineWriter.w (out : LineWriter) (s : String) : LineWriter :=
  ⟨out.lines ++ stringsSplit s '\n'⟩

/-- Modelled from the spec: `blank()` appends an empty line. -/
def LineWriter.ln (out : LineWriter) : LineWriter :=
  ⟨out.lines ++ [""]⟩

/-- Modelled from the spec: `mustWrite(path)` joins the accumulated lines
with newline; this is the content the file receives. -/
def LineWriter.content (out : LineWriter) : String :=
  stringsJoin out.lines "\n"

/-! ## The registry records -/

/-- Modelled from the spec: the `Rule` record (declared outside `main.go`),
with the fields the emitters of `main.go` read as plain data. -/
structure Rule where
  Name : String
  Doc : String := ""
  Experimental : Bool := false
  IsTest : Bool := false
  Plugins : List String := []
deriving DecidableEq, Repr

/-- Modelled from the spec: the `Language` record (declared outside
`main.go`).  The Go maps `Aliases` and `ExtraDefs` are kept as the list of
their key/value entries. -/
structure Language where
  Name : String
  DisplayName : String := ""
  Rules : List Rule := []
  DependsOn : List String := []
  Aliases : List (String × String) := []
  ExtraDefs : List (String × String) := []
  ModuleExtraLines : String := ""
deriving DecidableEq, Repr

/-- The CI platforms of `main.go` (windows is disabled there). -/
def ciPlatforms : List String := ["ubuntu2204", "macos"]

/-- The table `extraPlatformFlags`; a key that is absent yields the empty
slice, as a Go map lookup does. -/
def extraPlatformFlags (_ciPlatform : String) : List String := []

/-- Modelled from the spec: `stringInSlice` (declared outside `main.go`) tells
whether the string is present verbatim in the slice. -/
def stringInSlice (a : String) (list : List String) : Bool :=
  list.contains a

/-! ## `mustWriteBazelCIPresubmitYml` -/

/-- The label `//examples/routeguide:{client}_{server}` looked up in the
allow-list. -/
def routeguideLabel (clientLang serverLang : Language) : String :=
  "//examples/routeguide:" ++ clientLang.Name ++ "_" ++ serverLang.Name

/-- The line of the test matrix for a pair of languages. -/
def routeguideEntry (clientLang serverLang : Language) : String :=
  "    - \"//examples/routeguide:" ++ clientLang.Name ++ "_" ++ serverLang.Name ++ "\""

/-- The gate of line 498 of `main.go`. -/
def routeguideGate (doTestOnPlatform : Language → Option Rule → String → Bool)
    (availableTestLabels : List String) (ciPlatform : String)
    (clientLang serverLang : Language) : Bool :=
  doTestOnPlatform clientLang none ciPlatform
    && doTestOnPlatform serverLang none ciPlatform
    && stringInSlice (routeguideLabel clientLang serverLang) availableTestLabels

/-- The two nested loops over `languages` under `test_targets:`. -/
def writeTestTargets (doTestOnPlatform : Language → Option Rule → String → Bool)
    (availableTestLabels : List String) (languages : List Language)
    (ciPlatform : String) (out : LineWriter) : LineWriter :=
  languages.foldl (fun out clientLang =>
    languages.foldl (fun out serverLang =>
      if routeguideGate doTestOnPlatform availableTestLabels ciPlatform clientLang serverLang
      then out.w (routeguideEntry clientLang serverLang)
      else out) out) out

/-- Body of the first loop over `ciPlatforms`: the task `main_{platform}`. -/
def writeMainTask (doTestOnPlatform : Language → Option Rule → String → Bool)
    (availableTestLabels : List String) (languages : List Language)
    (out : LineWriter) (ciPlatform : String) : LineWriter :=
  let out := out.w ("  main_" ++ ciPlatform ++ ":")
  let out := out.w "    name: build & test all"
  let out := out.w ("    platform: " ++ ciPlatform)
  let out := out.w "    test_flags:"
  let out := out.w "    - \"--test_output=errors\""
  let out :=
    if ciPlatform = "windows" then
      (out.w "    - \"--cxxopt=/std:c++17\"").w "    - \"--host_cxxopt=/std:c++17\""
    else
      (out.w "    - \"--cxxopt=-std=c++17\"").w "    - \"--host_cxxopt=-std=c++17\""
  let out := (extraPlatformFlags ciPlatform).foldl
    (fun out flag => out.w ("    - \"" ++ flag ++ "\"")) out
  let out := out.w "    test_targets:"
  let out := writeTestTargets doTestOnPlatform availableTestLabels languages ciPlatform out
  out.ln

/-- The loop of lines 513-518: is some rule of the language to be run on the
platform (the loop stops at the first one). -/
def platformHasCommand (doTestOnPlatform : Language → Option Rule → String → Bool)
    (lang : Language) (ciPlatform : String) : List Rule → Bool
  | [] => false
  | rule :: rules =>
    if doTestOnPlatform lang (some rule) ciPlatform then true
    else platformHasCommand doTestOnPlatform lang ciPlatform rules

/-- The command line of one rule's example in a task. -/
def exampleCommand (lang : Language) (rule : Rule) (ciPlatform : String) : String :=
  if ciPlatform = "windows" then
    "     - make.exe " ++ lang.Name ++ "_" ++ rule.Name ++ "_example"
  else
    "     - make " ++ lang.Name ++ "_" ++ rule.Name ++ "_example"

/-- Body of the loops of lines 509-557: the task `{lang}_{platform}_examples`,
skipped when the platform has no command. -/
def writeExampleTask (doTestOnPlatform : Language → Option Rule → String → Bool)
    (lang : Language) (out : LineWriter) (ciPlatform : String) : LineWriter :=
  if !platformHasCommand doTestOnPlatform lang ciPlatform lang.Rules then out
  else
    let out := out.w ("  " ++ lang.Name ++ "_" ++ ciPlatform ++ "_examples:")
    let out := out.w ("    name: " ++ lang.Name ++ " examples")
    let out := out.w ("    platform: " ++ ciPlatform)
    let out := out.w "    environment:"
    let out :=
      if ciPlatform = "windows" then
        out.w "      BAZEL_EXTRA_FLAGS: \"--cxxopt=/std:c++17 --host_cxxopt=/std:c++17\""
      else
        out.w "      BAZEL_EXTRA_FLAGS: \"--cxxopt=-std=c++17 --host_cxxopt=-std=c++17\""
    let out :=
      if ciPlatform = "windows" then
        out.w "    batch_commands:"
      else
        let out := out.w "    shell_commands:"
        let out := out.w "     - set -x"
        (extraPlatformFlags ciPlatform).foldl
          (fun out flag =>
            out.w ("     - export BAZEL_EXTRA_FLAGS=\"" ++ flag ++ " $BAZEL_EXTRA_FLAGS\"")) out
    let out := lang.Rules.foldl (fun out rule =>
      if !doTestOnPlatform lang (some rule) ciPlatform then out
      else out.w (exampleCommand lang rule ciPlatform)) out
    out.ln

/-- Go `strings.HasPrefix`. -/
def stringsHasPrefix (s pre : String) : Bool :=
  pre.data.isPrefixOf s.data

/-- An entry of a directory listing (`os.FileInfo`): its name and whether it
is a directory. -/
structure FileInfo where
  Name : String
  IsDir : Bool
deriving DecidableEq, Repr

/-- The function `findTestWorkspaceNames`, on the listing of the directory
`{dir}/test_workspaces`. -/
def findTestWorkspaceNames (files : List FileInfo) : List String :=
  files.foldl (fun testWorkspaces file =>
    if file.IsDir && !stringsHasPrefix file.Name "." && !stringsHasPrefix file.Name "bazel-"
    then testWorkspaces ++ [file.Name]
    else testWorkspaces) []

/-- Body of the loop of lines 562-588: the task `{platform}_test_workspaces`. -/
def writeTestWorkspacesTask (files : List FileInfo)
    (out : LineWriter) (ciPlatform : String) : LineWriter :=
  let out := out.w ("  " ++ ciPlatform ++ "_test_workspaces:")
  let out := out.w "    name: test workspaces"
  let out := out.w ("    platform: " ++ ciPlatform)
  let out := out.w "    environment:"
  let out :=
    if ciPlatform = "windows" then
      out.w "      BAZEL_EXTRA_FLAGS: \"--cxxopt=/std:c++17 --host_cxxopt=/std:c++17\""
    else
      out.w "      BAZEL_EXTRA_FLAGS: \"--cxxopt=-std=c++17 --host_cxxopt=-std=c++17\""
  let out :=
    if ciPlatform = "windows" then
      out.w "    batch_commands:"
    else
      (out.w "    shell_commands:").w "     - set -x"
  let out := (findTestWorkspaceNames files).foldl (fun out testWorkspace =>
    if ciPlatform = "windows" then
      out.w ("     - make.exe test_workspace_" ++ testWorkspace)
    else
      out.w ("     - make test_workspace_" ++ testWorkspace)) out
  out.ln

/-- The function `mustWriteBazelCIPresubmitYml`: the lines of
`.bazelci/presubmit.yml`.  `content` is the content of the allow-list file,
`files` the listing of `{dir}/test_workspaces`; `doTestOnPlatform` (declared
outside `main.go`) is a parameter. -/
def mustWriteBazelCIPresubmitYml (doTestOnPlatform : Language → Option Rule → String → Bool)
    (content : String) (files : List FileInfo) (languages : List Language) : LineWriter :=
  let availableTestLabels := stringsSplit content '\n'
  let out : LineWriter := {}
  let out := out.w "---"
  let out := out.w "tasks:"
  let out := ciPlatforms.foldl
    (writeMainTask doTestOnPlatform availableTestLabels languages) out
  let out := languages.foldl (fun out lang =>
    ciPlatforms.foldl (writeExampleTask doTestOnPlatform lang) out) out
  ciPlatforms.foldl (writeTestWorkspacesTask files) out

/-! ## `mustWriteLanguageDefs` -/

/-- Go map index `m[k]`: the value stored under the key, the zero value of
the value type (the empty string) when the key is absent. -/
def mapIndex (m : List (String × String)) (k : String) : String :=
  (m.lookup k).getD ""

/-- The `load` line of a rule in `defs.bzl`. -/
def ruleLoadLine (ruleName : String) : String :=
  "load(\":" ++ ruleName ++ ".bzl\", _" ++ ruleName ++ " = \"" ++ ruleName ++ "\")"

/-- The `load` line of an extra def in `defs.bzl`. -/
def extraDefLoadLine (d : String × String) : String :=
  "load(\"" ++ d.2 ++ "\", _" ++ d.1 ++ " = \"" ++ d.1
    ++ "\")  # buildifier: disable=same-origin-load # buildifier: disable=out-of-order-load"

/-- A line `{name} = _{target}` of `defs.bzl`. -/
def exportLine (name target : String) : String :=
  name ++ " = _" ++ target

/-- Lines 241-248: the `load` lines of the rules. -/
def writeRuleLoads (lang : Language) (out : LineWriter) : LineWriter :=
  let ruleNames := lang.Rules.foldl (fun ruleNames rule => ruleNames ++ [rule.Name]) []
  let ruleNames := sortStrings ruleNames
  ruleNames.foldl (fun out ruleName => out.w (ruleLoadLine ruleName)) out

/-- Lines 249-251: the `load` lines of the extra defs.  `extraDefsSeq` is the
sequence of entries the `range` over the map `ExtraDefs` visits. -/
def writeExtraDefLoads (extraDefsSeq : List (String × String))
    (out : LineWriter) : LineWriter :=
  extraDefsSeq.foldl (fun out d => out.w (extraDefLoadLine d)) out

/-- Lines 254-258: the section `# Export {lang} rules`. -/
def writeExports (lang : Language) (out : LineWriter) : LineWriter :=
  let out := out.w ("# Export " ++ lang.Name ++ " rules")
  let out := lang.Rules.foldl (fun out rule => out.w (exportLine rule.Name rule.Name)) out
  out.ln

/-- Lines 260-274: the section `# Aliases`.  `aliasesSeq` is the sequence of
entries the `range` over the map `Aliases` visits. -/
def writeAliases (lang : Language) (aliasesSeq : List (String × String))
    (out : LineWriter) : LineWriter :=
  if lang.Aliases.length > 0 then
    let out := out.w "# Aliases"
    let aliases := aliasesSeq.foldl (fun aliases a => aliases ++ [a.1]) []
    let aliases := sortStrings aliases
    let out := aliases.foldl
      (fun out aliasName => out.w (exportLine aliasName (mapIndex lang.Aliases aliasName))) out
    out.ln
  else out

/-- Lines 276-284: the section `# Extra defs`.  `extraDefsSeq` is the
sequence of entries the `range` over the map `ExtraDefs` visits. -/
def writeExtraDefs (lang : Language) (extraDefsSeq : List (String × String))
    (out : LineWriter) : LineWriter :=
  if lang.ExtraDefs.length > 0 then
    let out := out.w "# Extra defs"
    let out := extraDefsSeq.foldl (fun out d => out.w (exportLine d.1 d.1)) out
    out.ln
  else out

/-- The function `mustWriteLanguageDefs`: the lines of
`modules/{lang}/defs.bzl`.  Go leaves the iteration order of a map
unspecified, so each of the three `range` statements over a map takes the
sequence of entries it visits as an argument: `extraDefsSeq1` (line 249),
`aliasesSeq` (line 264) and `extraDefsSeq2` (line 279), each a permutation of
the entries of its map. -/
def mustWriteLanguageDefs (lang : Language)
    (extraDefsSeq1 aliasesSeq extraDefsSeq2 : List (String × String)) : LineWriter :=
  let out : LineWriter := {}
  let out := out.w ("\"\"\"" ++ lang.Name ++ " protobuf and grpc rules.\"\"\"")
  let out := out.ln
  let out := writeRuleLoads lang out
  let out := writeExtraDefLoads extraDefsSeq1 out
  let out := out.ln
  let out := writeExports lang out
  let out := writeAliases lang aliasesSeq out
  writeExtraDefs lang extraDefsSeq2 out

/-! ## `mustWriteLanguageExampleModuleBazelFile` -/

/-- Go `fmt.Sprintf(format)` without operands, as `out.w(format)` calls it: a
format that holds no `%` is copied unchanged; how the library renders a
format with directives is left to `directives`. -/
def sprintfNoOperands (directives : String → String) (format : String) : String :=
  if '%' ∈ format.data then directives format else format

/-- The text line 192 adds to `extraDeps` for a dependency. -/
def depBazelDep (dep : String) : String :=
  "\nbazel_dep(name = \"rules_proto_grpc_" ++ dep
    ++ "\", version = \"0.0.0.rpg.version.placeholder\")"

/-- The text lines 193-198 add to `extraLocalOverrides` for a dependency. -/
def depLocalOverride (rootPath dep : String) : String :=
  "\n\nlocal_path_override(\n    module_name = \"rules_proto_grpc_" ++ dep
    ++ "\",\n    path = \"" ++ rootPath ++ "modules/" ++ dep ++ "\",\n)"

/-- The value of `rootPath` (lines 185-187). -/
def rootPathOf (lang : Language) : String :=
  let depth := stringsSplit lang.Name '/'
  stringsRepeat "../" (depth.length + 2)

/-- The function `mustWriteLanguageExampleModuleBazelFile`: the lines of
`examples/{lang}/{rule}/MODULE.bazel`. -/
def mustWriteLanguageExampleModuleBazelFile (directives : String → String)
    (lang : Language) (_rule : Rule) : LineWriter :=
  let out : LineWriter := {}
  let rootPath := rootPathOf lang
  let acc := lang.DependsOn.foldl
    (fun (acc : String × String) dep =>
      (acc.1 ++ depBazelDep dep, acc.2 ++ depLocalOverride rootPath dep)) ("", "")
  let extraDeps := acc.1
  let extraLocalOverrides := acc.2
  let out := out.w (
    "bazel_dep(name = \"rules_proto_grpc\", version = \"0.0.0.rpg.version.placeholder\")\n"
    ++ "bazel_dep(name = \"rules_proto_grpc_example_protos\", version = \"0.0.0.rpg.version.placeholder\")\n"
    ++ "bazel_dep(name = \"rules_proto_grpc_" ++ lang.Name
    ++ "\", version = \"0.0.0.rpg.version.placeholder\")" ++ extraDeps ++ "\n"
    ++ "\n"
    ++ "local_path_override(\n"
    ++ "    module_name = \"rules_proto_grpc\",\n"
    ++ "    path = \"" ++ rootPath ++ "modules/core\",\n"
    ++ ")\n"
    ++ "\n"
    ++ "local_path_override(\n"
    ++ "    module_name = \"rules_proto_grpc_example_protos\",\n"
    ++ "    path = \"" ++ rootPath ++ "modules/example_protos\",\n"
    ++ ")\n"
    ++ "\n"
    ++ "local_path_override(\n"
    ++ "    module_name = \"rules_proto_grpc_" ++ lang.Name ++ "\",\n"
    ++ "    path = \"" ++ rootPath ++ "modules/" ++ lang.Name ++ "\",\n"
    ++ ")" ++ extraLocalOverrides)
  let out :=
    if lang.ModuleExtraLines.length > 0 then
      (out.ln).w (sprintfNoOperands directives lang.ModuleExtraLines)
    else out
  out.ln

/-! ## `mustWriteExamplesMakefile` -/

/-- The name of the make target of a rule's example. -/
def exampleTarget (lang : Language) (rule : Rule) : String :=
  lang.Name ++ "_" ++ rule.Name ++ "_example"

/-- The bazel command of a rule's target (lines 615-619). -/
def bazelCommand (lang : Language) (rule : Rule) : String :=
  let langDepth := countChar '/' lang.Name
  if rule.IsTest then
    "\tbazel --batch test --enable_bzlmod ${BAZEL_EXTRA_FLAGS} --verbose_failures --test_output=errors --disk_cache="
      ++ stringsRepeat "../" langDepth ++ "../../bazel-disk-cache //..."
  else
    "\tbazel --batch build --enable_bzlmod ${BAZEL_EXTRA_FLAGS} --verbose_failures --disk_cache="
      ++ stringsRepeat "../" langDepth ++ "../../bazel-disk-cache //..."

/-- State of the loops of `mustWriteExamplesMakefile`. -/
structure MakefileState where
  out : LineWriter := {}
  allNames : List String := []
  langNames : List String := []
deriving DecidableEq, Repr

/-- Body of the loop over the rules of a language (lines 605-621).  `pathJoin`
is Go `path.Join`. -/
def writeExampleRule (pathJoin : List String → String) (dir : String) (lang : Language)
    (st : MakefileState) (rule : Rule) : MakefileState :=
  let exampleDir := pathJoin [dir, "examples", lang.Name, rule.Name]
  let name := exampleTarget lang rule
  let allNames := st.allNames ++ [name]
  let langNames := st.langNames ++ [name]
  let out := st.out.w (".PHONY: " ++ name)
  let out := out.w (name ++ ":")
  let out := out.w ("\tcd " ++ exampleDir ++ "; \\")
  let out := out.w (bazelCommand lang rule)
  let out := out.ln
  { out := out, allNames := allNames, langNames := langNames }

/-- Body of the loop over the languages (lines 598-628). -/
def writeExampleLanguage (pathJoin : List String → String) (dir : String)
    (st : MakefileState) (lang : Language) : MakefileState :=
  let st := lang.Rules.foldl (writeExampleRule pathJoin dir lang) { st with langNames := [] }
  let targetName := lang.Name ++ "_examples"
  let out := st.out.w (".PHONY: " ++ targetName)
  let out := out.w (targetName ++ ": " ++ stringsJoin st.langNames " ")
  let out := out.ln
  { st with out := out }

/-- The function `mustWriteExamplesMakefile`: the lines of
`examples/Makefile.mk`. -/
def mustWriteExamplesMakefile (pathJoin : List String → String) (dir : String)
    (languages : List Language) : LineWriter :=
  let st := languages.foldl (writeExampleLanguage pathJoin dir) {}
  let out := st.out.w ".PHONY: all_examples"
  let out := out.w ("all_examples: " ++ stringsJoin st.allNames " ")
  out.ln

/-! ## `mustWriteTestWorkspacesMakefile` -/

/-- The name of the make target of a test workspace (line 644). -/
def testWorkspaceTarget (testWorkspace : String) : String :=
  "test_workspace_" ++ testWorkspace

/-- State of the loop of `mustWriteTestWorkspacesMakefile`. -/
structure WorkspacesState where
  out : LineWriter := {}
  allNames : List String := []
deriving DecidableEq, Repr

/-- Body of the loop over the test workspaces (lines 643-651).  `pathJoin` is
Go `path.Join`. -/
def writeTestWorkspaceRule (pathJoin : List String → String) (dir : String)
    (st : WorkspacesState) (testWorkspace : String) : WorkspacesState :=
  let name := testWorkspaceTarget testWorkspace
  let allNames := st.allNames ++ [name]
  let out := st.out.w (".PHONY: " ++ name)
  let out := out.w (name ++ ":")
  let out := out.w ("\tcd " ++ pathJoin [dir, "test_workspaces", testWorkspace] ++ "; \\")
  let out := out.w "\tbazel --batch test --enable_bzlmod ${BAZEL_EXTRA_FLAGS} --verbose_failures --disk_cache=../bazel-disk-cache --test_output=errors //..."
  let out := out.ln
  { out := out, allNames := allNames }

/-- The function `mustWriteTestWorkspacesMakefile`: the lines of
`test_workspaces/Makefile.mk`.  `files` is the listing of
`{dir}/test_workspaces`. -/
def mustWriteTestWorkspacesMakefile (pathJoin : List String → String) (dir : String)
    (files : List FileInfo) : LineWriter :=
  let st := (findTestWorkspaceNames files).foldl (writeTestWorkspaceRule pathJoin dir) {}
  let out := st.out.w ".PHONY: all_test_workspaces"
  let out := out.w ("all_test_workspaces: " ++ stringsJoin st.allNames " ")
  out.ln

/-! ## `action` and `main` -/

/-- Go `strings.ReplaceAll(s, old, new)` on character lists, for a non-empty
`old`: the occurrences are replaced from the left, without overlap.  The
counter is the number of characters of a match still to be dropped. -/
def replaceAllAux (old new : List Char) : Nat → List Char → List Char
  | _, [] => []
  | skip + 1, _ :: cs => replaceAllAux old new skip cs
  | 0, c :: cs =>
    if old.isPrefixOf (c :: cs) then new ++ replaceAllAux old new (old.length - 1) cs
    else c :: replaceAllAux old new 0 cs

/-- Go `strings.ReplaceAll(s, old, new)` for a non-empty `old`. -/
def stringsReplaceAll (s old new : String) : String :=
  ⟨replaceAllAux old.data new.data 0 s.data⟩

/-- The command-line flags of `main`, each with its default value. -/
structure Flags where
  dir : String := "."
  module_template : String := "tools/rulegen/MODULE.bazel.template"
  readme_header_template : String := "tools/rulegen/README.header.md"
  readme_footer_template : String := "tools/rulegen/README.footer.md"
  index_template : String := "tools/rulegen/index.rst"
  ref : String := "{GIT_COMMIT_ID}"
  sha256 : String := "{ARCHIVE_TAR_GZ_SHA256}"
  github_url : String :=
    "https://github.com/rules-proto-grpc/rules_proto_grpc/releases/download/{ref}/rules_proto_grpc-{ref}.tar.gz"
  available_tests : String := "available_tests.txt"
deriving DecidableEq, Repr

/-- The calls `action` makes that reach outside the process: the checksum
derivation and the emitters, each with the arguments it receives. -/
inductive Call where
  | mustGetSha256 (url : String)
  | mustWriteLanguageReadme (dir : String) (lang : Language)
  | mustWriteLanguageDefs (dir : String) (lang : Language)
  | mustWriteLanguageRules (dir : String) (lang : Language)
  | mustWriteLanguageExamples (dir : String) (lang : Language)
  | mustWriteModuleBazel (dir template : String) (languages : List Language)
  | mustWriteBazelignore (dir : String) (languages : List Language)
  | mustWriteReadme (dir header footer Ref Sha256 : String) (languages : List Language)
  | mustWriteIndexRst (dir template Ref Sha256 : String)
  | mustWriteBazelCIPresubmitYml (dir : String) (languages : List Language)
      (availableTestsPath : String)
  | mustWriteExamplesMakefile (dir : String) (languages : List Language)
  | mustWriteTestWorkspacesMakefile (dir : String)
deriving DecidableEq, Repr

/-- Result of `action`: the error it returns (`none` for `nil`) and the calls
it made, in order. -/
structure ActionResult where
  err : Option String
  calls : List Call
deriving DecidableEq, Repr

/-- The function `action`.  `mustGetSha256` (declared outside `main.go`) gives
the checksum of the archive at a URL; `languages` is the registry the
constructors `makeBuf` ... `makePython` build.  The calls are taken to
return (a fatal error in one of them ends the process there). -/
def action (mustGetSha256 : String → String) (languages : List Language)
    (c : Flags) : ActionResult :=
  let dir := c.dir
  if dir = "" then { err := some "--dir required", calls := [] }
  else
    let ref := c.ref
    let sha256 := c.sha256
    let githubURL := c.github_url
    let calls : List Call := []
    let st : String × List Call :=
      if ref ≠ "{GIT_COMMIT_ID}" ∧ sha256 = "{ARCHIVE_TAR_GZ_SHA256}" then
        let url := stringsReplaceAll githubURL "{ref}" ref
        (mustGetSha256 url, calls ++ [Call.mustGetSha256 url])
      else (sha256, calls)
    let sha256 := st.1
    let calls := st.2
    let calls := languages.foldl (fun calls lang =>
      calls ++ [Call.mustWriteLanguageReadme dir lang, Call.mustWriteLanguageDefs dir lang,
        Call.mustWriteLanguageRules dir lang, Call.mustWriteLanguageExamples dir lang]) calls
    let calls := calls ++ [Call.mustWriteModuleBazel dir c.module_template languages]
    let calls := calls ++ [Call.mustWriteBazelignore dir languages]
    let calls := calls ++ [Call.mustWriteReadme dir c.readme_header_template
      c.readme_footer_template ref sha256 languages]
    let calls := calls ++ [Call.mustWriteIndexRst dir c.index_template ref sha256]
    let calls := calls ++ [Call.mustWriteBazelCIPresubmitYml dir languages c.available_tests]
    let calls := calls ++ [Call.mustWriteExamplesMakefile dir languages]
    let calls := calls ++ [Call.mustWriteTestWorkspacesMakefile dir]
    { err := none, calls := calls }

/-- The value `cli.NewExitError(message, exitCode)` builds. -/
structure ExitError where
  message : String
  exitCode : Nat
deriving DecidableEq, Repr

/-- The closure `app.Action` of `main` (lines 81-87): the error it returns
and the calls made. -/
def appAction (mustGetSha256 : String → String) (languages : List Language)
    (c : Flags) : Option ExitError × List Call :=
  let r := action mustGetSha256 languages c
  match r.err with
  | some _ => (some { message := "%v", exitCode := 1 }, r.calls)
  | none => (none, r.calls)

/-! ## Definitions used to state the properties -/

/-- The lines of the task `main_{platform}` that come before its test
targets, for a platform other than windows. -/
def mainTaskHeader (ciPlatform : String) : List String :=
  ["  main_" ++ ciPlatform ++ ":",
   "    name: build & test all",
   "    platform: " ++ ciPlatform,
   "    test_flags:",
   "    - \"--test_output=errors\"",
   "    - \"--cxxopt=-std=c++17\"",
   "    - \"--host_cxxopt=-std=c++17\"",
   "    test_targets:"]

/-- The lines the two nested loops of lines 496-502 emit for a platform. -/
def routeguideMatrix (doTestOnPlatform : Language → Option Rule → String → Bool)
    (availableTestLabels : List String) (languages : List Language)
    (ciPlatform : String) : List String :=
  (writeTestTargets doTestOnPlatform availableTestLabels languages ciPlatform {}).lines

/-- The ordered pairs (client, server) of a language list, client-major and
server-minor. -/
def orderedPairs (languages : List Language) : List (Language × Language) :=
  languages.flatMap (fun clientLang => languages.map (fun serverLang => (clientLang, serverLang)))

/-- The lines the body of the loops of lines 509-557 emits for a language
and a platform. -/
def exampleTaskLines (doTestOnPlatform : Language → Option Rule → String → Bool)
    (lang : Language) (ciPlatform : String) : List String :=
  (writeExampleTask doTestOnPlatform lang {} ciPlatform).lines

/-- The lines the body of the loop of lines 562-588 emits for a platform. -/
def testWorkspacesTaskLines (files : List FileInfo) (ciPlatform : String) : List String :=
  (writeTestWorkspacesTask files {} ciPlatform).lines

/-- The lines of the task `{lang}_{platform}_examples` that come before its
commands, for a platform other than windows. -/
def exampleTaskHeader (lang : Language) (ciPlatform : String) : List String :=
  ["  " ++ lang.Name ++ "_" ++ ciPlatform ++ "_examples:",
   "    name: " ++ lang.Name ++ " examples",
   "    platform: " ++ ciPlatform,
   "    environment:",
   "      BAZEL_EXTRA_FLAGS: \"--cxxopt=-std=c++17 --host_cxxopt=-std=c++17\"",
   "    shell_commands:",
   "     - set -x"]

/-- The opening lines of `defs.bzl` (line 238). -/
def docLines (lang : Language) : List String :=
  (({} : LineWriter).w ("\"\"\"" ++ lang.Name ++ " protobuf and grpc rules.\"\"\"")).lines

/-- The lines lines 241-248 emit: the `load` lines of the rules. -/
def ruleLoadLines (lang : Language) : List String :=
  (writeRuleLoads lang {}).lines

/-- The lines lines 249-251 emit: the `load` lines of the extra defs. -/
def extraDefLoadLines (extraDefsSeq : List (String × String)) : List String :=
  (writeExtraDefLoads extraDefsSeq {}).lines

/-- The lines lines 254-258 emit: the section `# Export {lang} rules`. -/
def exportLines (lang : Language) : List String :=
  (writeExports lang {}).lines

/-- The lines lines 260-274 emit: the section `# Aliases`. -/
def aliasLines (lang : Language) (aliasesSeq : List (String × String)) : List String :=
  (writeAliases lang aliasesSeq {}).lines

/-- The lines lines 276-284 emit: the section `# Extra defs`. -/
def extraDefLines (lang : Language) (extraDefsSeq : List (String × String)) : List String :=
  (writeExtraDefs lang extraDefsSeq {}).lines

/-- The names of the rules of a language, in declared order. -/
def ruleNamesOf (lang : Language) : List String :=
  lang.Rules.map (fun rule => rule.Name)

/-- The order of `sort.Strings` on two strings. -/
def StrLe (a b : String) : Prop :=
  a.data ≤ b.data

/-- The line `bazel_dep` of the module `rules_proto_grpc_{name}`. -/
def depLine (name : String) : String :=
  "bazel_dep(name = \"rules_proto_grpc_" ++ name
    ++ "\", version = \"0.0.0.rpg.version.placeholder\")"

/-- The four lines of a block `local_path_override` for a module at a path. -/
def overrideBlock (moduleName path : String) : List String :=
  ["local_path_override(",
   "    module_name = \"" ++ moduleName ++ "\",",
   "    path = \"" ++ path ++ "\",",
   ")"]

/-- The lines of the example `MODULE.bazel` that come from the template of
lines 201-218: the `bazel_dep` lines, then the blocks of the two shared
modules, of the module of the language and of each dependency in order, each
block after a blank line. -/
def moduleBodyLines (lang : Language) : List String :=
  ["bazel_dep(name = \"rules_proto_grpc\", version = \"0.0.0.rpg.version.placeholder\")",
   "bazel_dep(name = \"rules_proto_grpc_example_protos\", version = \"0.0.0.rpg.version.placeholder\")",
   depLine lang.Name]
  ++ lang.DependsOn.map depLine
  ++ ("" :: overrideBlock "rules_proto_grpc" (rootPathOf lang ++ "modules/core"))
  ++ ("" :: overrideBlock "rules_proto_grpc_example_protos"
        (rootPathOf lang ++ "modules/example_protos"))
  ++ ("" :: overrideBlock ("rules_proto_grpc_" ++ lang.Name)
        (rootPathOf lang ++ "modules/" ++ lang.Name))
  ++ lang.DependsOn.flatMap (fun dep =>
      "" :: overrideBlock ("rules_proto_grpc_" ++ dep) (rootPathOf lang ++ "modules/" ++ dep))

/-- The lines of the example `MODULE.bazel` that lines 220-223 append: a
blank line and `ModuleExtraLines`, when it is not empty. -/
def moduleExtraLines (directives : String → String) (lang : Language) : List String :=
  if lang.ModuleExtraLines.length > 0 then
    "" :: stringsSplit (sprintfNoOperands directives lang.ModuleExtraLines) '\n'
  else []

/-- The line that gives the path of a block `local_path_override`. -/
def pathLine (path : String) : String :=
  "    path = \"" ++ path ++ "\","

/-- The number of blocks `local_path_override` among lines. -/
def countOverrides (lines : List String) : Nat :=
  lines.count "local_path_override("

/-- The lines that give a path of a block `local_path_override`. -/
def pathLines (lines : List String) : List String :=
  lines.filter (fun l => stringsHasPrefix l "    path = \"")

/-- A string continued by lines, each after a line break. -/
def appendLines (s : String) (ls : List String) : String :=
  ls.foldl (fun a l => a ++ "\n" ++ l) s

/-- An example registry entry: the language `grpc-gateway`, which depends on
`go` and brings extra lines for `MODULE.bazel`, among them a block
`local_path_override` of its own. -/
def exampleGateway : Language :=
  { Name := "grpc_gateway",
    Rules := [{ Name := "gateway_grpc_compile" }],
    DependsOn := ["go"],
    ModuleExtraLines :=
      "local_path_override(\n    module_name = \"gazelle\",\n    path = \"../gazelle\",\n)" }

/-- The lines of the make target of a rule's example: the `.PHONY`
declaration, the target, the line of the `cd` command (as the writer splits
it), the bazel command and a blank line. -/
def exampleTargetBlock (pathJoin : List String → String) (dir : String)
    (lang : Language) (rule : Rule) : List String :=
  [".PHONY: " ++ exampleTarget lang rule, exampleTarget lang rule ++ ":"]
  ++ stringsSplit ("\tcd " ++ pathJoin [dir, "examples", lang.Name, rule.Name] ++ "; \\") '\n'
  ++ [bazelCommand lang rule, ""]

/-- The names of the make targets of the rules of a language, in declared
order. -/
def exampleTargets (lang : Language) : List String :=
  lang.Rules.map (exampleTarget lang)

/-- The lines of the aggregate target of a language. -/
def languageTargetBlock (lang : Language) : List String :=
  [".PHONY: " ++ lang.Name ++ "_examples",
   lang.Name ++ "_examples: " ++ stringsJoin (exampleTargets lang) " ",
   ""]

/-- An example of `path.Join` on clean, non-empty elements: they are joined
with `/`. -/
def joinWithSlash (elems : List String) : String :=
  stringsJoin elems "/"

/-- Is the call a checksum derivation. -/
def Call.isDerivation : Call → Bool
  | .mustGetSha256 _ => true
  | _ => false

/-- Is the call one to the README renderer. -/
def Call.isReadme : Call → Bool
  | .mustWriteReadme _ _ _ _ _ _ => true
  | _ => false

/-- Is the call one to the index-page renderer. -/
def Call.isIndexRst : Call → Bool
  | .mustWriteIndexRst _ _ _ _ => true
  | _ => false

/-- The calls `action` makes for one language (lines 117-122). -/
def languageCalls (dir : String) (lang : Language) : List Call :=
  [Call.mustWriteLanguageReadme dir lang, Call.mustWriteLanguageDefs dir lang,
   Call.mustWriteLanguageRules dir lang, Call.mustWriteLanguageExamples dir lang]

/-- An example of `mustGetSha256`: the checksum is a text built on the URL. -/
def exampleSha256 (url : String) : String :=
  "sha256-of:" ++ url

/-- An example of flags: `--ref v1.0.0` with an empty `--dir`, the other
flags at their defaults. -/
def flagsNoDir : Flags :=
  { dir := "", ref := "v1.0.0" }

/-- An example of flags: `--ref v1.0.0`, the other flags at their defaults. -/
def flagsRef : Flags :=
  { ref := "v1.0.0" }

/-- An example registry entry: the language `go`, with two rules. -/
def exampleGo : Language :=
  { Name := "go",
    Rules := [{ Name := "go_proto_library" }, { Name := "go_proto_compile", IsTest := true }] }

/-- An example registry entry: the language `python`, with one rule. -/
def examplePython : Language :=
  { Name := "python", Rules := [{ Name := "python_proto_compile" }] }

/-- An example registry entry: the language `cpp`, whose rules are declared
in an order that is not the alphabetical one, with two aliases. -/
def exampleCpp : Language :=
  { Name := "cpp",
    Rules := [{ Name := "cpp_proto_compile" }, { Name := "cpp_grpc_compile" }],
    Aliases := [("cc_proto_compile", "cpp_proto_compile"),
      ("cc_grpc_compile", "cpp_grpc_compile")] }

/-- An example registry entry: a language with two extra defs. -/
def exampleExtra : Language :=
  { Name := "js",
    Rules := [{ Name := "js_proto_compile" }],
    ExtraDefs := [("alpha_def", "//js:alpha.bzl"), ("beta_def", "//js:beta.bzl")] }

/-- The lines of the task `{platform}_test_workspaces` that come before its
commands, for a platform other than windows. -/
def testWorkspacesTaskHeader (ciPlatform : String) : List String :=
  ["  " ++ ciPlatform ++ "_test_workspaces:",
   "    name: test workspaces",
   "    platform: " ++ ciPlatform,
   "    environment:",
   "      BAZEL_EXTRA_FLAGS: \"--cxxopt=-std=c++17 --host_cxxopt=-std=c++17\"",
   "    shell_commands:",
   "     - set -x"]

/-- The lines of the make target of a test workspace: the `.PHONY`
declaration, the target, the line of the `cd` command (as the writer splits
it), the bazel command and a blank line. -/
def testWorkspaceTargetBlock (pathJoin : List String → String) (dir : String)
    (testWorkspace : String) : List String :=
  [".PHONY: " ++ testWorkspaceTarget testWorkspace, testWorkspaceTarget testWorkspace ++ ":"]
  ++ stringsSplit
      ("\tcd " ++ pathJoin [dir, "test_workspaces", testWorkspace] ++ "; \\") '\n'
  ++ ["\tbazel --batch test --enable_bzlmod ${BAZEL_EXTRA_FLAGS} --verbose_failures --disk_cache=../bazel-disk-cache --test_output=errors //...",
      ""]

/-- A Makefile declares a target when it holds the `.PHONY` declaration of
the target and the line that opens its rule. -/
def DeclaresTarget (lines : List String) (target : String) : Prop :=
  (".PHONY: " ++ target) ∈ lines ∧ (target ++ ":") ∈ lines

/-- Is the entry of the listing a test workspace: a directory whose name
starts with neither `.` nor `bazel-`. -/
def isTestWorkspace (file : FileInfo) : Bool :=
  file.IsDir && !stringsHasPrefix file.Name "." && !stringsHasPrefix file.Name "bazel-"

/-- An example of a listing of `test_workspaces`: two workspaces, a hidden
directory, a bazel output directory and a plain file. -/
def exampleListing : List FileInfo :=
  [{ Name := "python3_grpc", IsDir := true },
   { Name := ".git", IsDir := true },
   { Name := "bazel-out", IsDir := true },
   { Name := "Makefile.mk", IsDir := false },
   { Name := "shared_proto", IsDir := true }]

/-- An example of `doTestOnPlatform`: every language and rule is run on
`ubuntu2204` only. -/
def onUbuntuOnly : Language → Option Rule → String → Bool :=
  fun _ _ ciPlatform => ciPlatform == "ubuntu2204"

/-! ## Properties -/

/-! ### The writer and the string helpers -/

@[simp] theorem lines_w (out : LineWriter) (s : String) :
    (out.w s).lines = out.lines ++ stringsSplit s '\n' := rfl

@[simp] theorem lines_ln (out : LineWriter) : out.ln.lines = out.lines ++ [""] := rfl

@[simp] theorem lines_empty : ({} : LineWriter).lines = [] := rfl

theorem splitOnChar_ne_nil (sep : Char) (l : List Char) : splitOnChar sep l ≠ [] := by
  induction l with
  | nil => simp [splitOnChar]
  | cons c cs ih =>
    unfold splitOnChar
    split
    · simp
    · split <;> simp

theorem splitOnChar_of_not_mem (sep : Char) (l : List Char) (h : ¬ sep ∈ l) :
    splitOnChar sep l = [l] := by
  induction l with
  | nil => simp [splitOnChar]
  | cons c cs ih =>
    simp only [List.mem_cons, not_or] at h
    have hc : ¬ c = sep := fun e => h.1 e.symm
    simp [splitOnChar, hc, ih h.2]

theorem oneLine_append (a b : String) : OneLine (a ++ b) ↔ OneLine a ∧ OneLine b := by
  simp [OneLine, String.data_append, not_or]

theorem stringsSplit_of_oneLine (s : String) (h : OneLine s) : stringsSplit s '\n' = [s] := by
  unfold stringsSplit
  rw [splitOnChar_of_not_mem _ _ h]
  rfl

/-- A loop whose body appends lines to the writer appends, in order, the
lines of each round. -/
theorem foldl_lines {α : Type} (f : LineWriter → α → LineWriter) (g : α → List String)
    (l : List α) (h : ∀ x ∈ l, ∀ o : LineWriter, (f o x).lines = o.lines ++ g x)
    (out : LineWriter) : (l.foldl f out).lines = out.lines ++ l.flatMap g := by
  induction l generalizing out with
  | nil => simp
  | cons x xs ih =>
    simp only [List.foldl_cons, List.flatMap_cons]
    rw [ih (fun y hy => h y (List.mem_cons_of_mem _ hy)), h x (List.mem_cons_self _ _)]
    simp

theorem oneLine_routeguideEntry (c s : Language) (hc : OneLine c.Name) (hs : OneLine s.Name) :
    OneLine (routeguideEntry c s) := by
  unfold routeguideEntry
  simp only [oneLine_append]
  exact ⟨⟨⟨⟨by decide, hc⟩, by decide⟩, hs⟩, by decide⟩

/-! ### The CI configuration: the routeguide matrix -/

theorem isPrefix_w (out : LineWriter) (s : String) : out.lines <+: (out.w s).lines :=
  ⟨_, rfl⟩

theorem isPrefix_ln (out : LineWriter) : out.lines <+: out.ln.lines :=
  ⟨_, rfl⟩

/-- A loop whose body only appends to the writer only appends to it. -/
theorem isPrefix_foldl {α : Type} (f : LineWriter → α → LineWriter) (l : List α)
    (h : ∀ x, ∀ o : LineWriter, o.lines <+: (f o x).lines) (out : LineWriter) :
    out.lines <+: (l.foldl f out).lines := by
  induction l generalizing out with
  | nil => exact List.prefix_refl _
  | cons x xs ih => exact (h x out).trans (ih _)

theorem isPrefix_writeExampleTask (doTestOnPlatform : Language → Option Rule → String → Bool)
    (lang : Language) (out : LineWriter) (ciPlatform : String) :
    out.lines <+: (writeExampleTask doTestOnPlatform lang out ciPlatform).lines := by
  unfold writeExampleTask
  dsimp only
  repeat' first
    | exact List.prefix_refl _
    | refine List.IsPrefix.trans ?_ (isPrefix_ln _)
    | refine List.IsPrefix.trans ?_ (isPrefix_w _ _)
    | refine List.IsPrefix.trans ?_ (isPrefix_foldl _ _ ?_ _)
    | split
    | intro _ _

theorem isPrefix_writeTestWorkspacesTask (files : List FileInfo) (out : LineWriter)
    (ciPlatform : String) :
    out.lines <+: (writeTestWorkspacesTask files out ciPlatform).lines := by
  unfold writeTestWorkspacesTask
  dsimp only
  repeat' first
    | exact List.prefix_refl _
    | refine List.IsPrefix.trans ?_ (isPrefix_ln _)
    | refine List.IsPrefix.trans ?_ (isPrefix_w _ _)
    | refine List.IsPrefix.trans ?_ (isPrefix_foldl _ _ ?_ _)
    | split
    | intro _ _

/-- A loop whose body appends to the writer the lines it would write to an
empty writer does so as a whole. -/
theorem foldl_lines_hom {α : Type} (f : LineWriter → α → LineWriter) (l : List α)
    (h : ∀ x ∈ l, ∀ o : LineWriter,
      (f o x).lines = o.lines ++ (f ({} : LineWriter) x).lines)
    (out : LineWriter) :
    (l.foldl f out).lines = out.lines ++ (l.foldl f ({} : LineWriter)).lines := by
  rw [foldl_lines f (fun x => (f ({} : LineWriter) x).lines) l h out,
    foldl_lines f (fun x => (f ({} : LineWriter) x).lines) l h ({} : LineWriter)]
  simp

theorem writeTestTargets_hom (doTestOnPlatform : Language → Option Rule → String → Bool)
    (labels : List String) (languages : List Language) (ciPlatform : String)
    (out : LineWriter) :
    (writeTestTargets doTestOnPlatform labels languages ciPlatform out).lines
      = out.lines ++ routeguideMatrix doTestOnPlatform labels languages ciPlatform := by
  unfold routeguideMatrix writeTestTargets
  apply foldl_lines_hom
  intro c _ o
  apply foldl_lines_hom
  intro s _ o2
  split <;> simp

/-- The lines one round of the inner loop of lines 497-501 emits. -/
theorem flatMap_gate_eq {α : Type} (l : List α) (p : α → Bool) (f : α → String) :
    l.flatMap (fun s => if p s = true then [f s] else []) = (l.filter p).map f := by
  induction l with
  | nil => rfl
  | cons x xs ih =>
    simp only [List.flatMap_cons, ih, List.filter_cons]
    by_cases hx : p x = true <;> simp [hx]

theorem writeTestTargets_lines (doTestOnPlatform : Language → Option Rule → String → Bool)
    (labels : List String) (languages : List Language) (ciPlatform : String)
    (hnames : ∀ l ∈ languages, OneLine l.Name) (out : LineWriter) :
    (writeTestTargets doTestOnPlatform labels languages ciPlatform out).lines
      = out.lines ++ ((orderedPairs languages).filter
          (fun p => routeguideGate doTestOnPlatform labels ciPlatform p.1 p.2)).map
          (fun p => routeguideEntry p.1 p.2) := by
  unfold writeTestTargets orderedPairs
  rw [foldl_lines _ (fun c => ((languages.map (fun s => (c, s))).filter
      (fun p => routeguideGate doTestOnPlatform labels ciPlatform p.1 p.2)).map
      (fun p => routeguideEntry p.1 p.2))]
  · rw [List.filter_flatMap, List.map_flatMap]
  · intro c hc o
    rw [foldl_lines _ (fun s =>
      if routeguideGate doTestOnPlatform labels ciPlatform c s = true
      then [routeguideEntry c s] else [])]
    · rw [flatMap_gate_eq languages
        (fun s => routeguideGate doTestOnPlatform labels ciPlatform c s)
        (fun s => routeguideEntry c s)]
      simp [List.filter_map, List.map_map, Function.comp_def]
    · intro s hs o2
      by_cases hg : routeguideGate doTestOnPlatform labels ciPlatform c s = true
      · simp [hg, stringsSplit_of_oneLine _
          (oneLine_routeguideEntry c s (hnames c hc) (hnames s hs))]
      · simp [hg]

theorem writeMainTask_lines (doTestOnPlatform : Language → Option Rule → String → Bool)
    (labels : List String) (languages : List Language) (out : LineWriter)
    (ciPlatform : String) (hP : ciPlatform ∈ ciPlatforms) :
    (writeMainTask doTestOnPlatform labels languages out ciPlatform).lines
      = out.lines ++ (mainTaskHeader ciPlatform
          ++ routeguideMatrix doTestOnPlatform labels languages ciPlatform ++ [""]) := by
  have happ := writeTestTargets_hom doTestOnPlatform labels languages ciPlatform
  simp only [ciPlatforms, List.mem_cons, List.mem_singleton, List.not_mem_nil, or_false] at hP
  rcases hP with rfl | rfl
  · simp only [writeMainTask, extraPlatformFlags, List.foldl_nil, lines_ln, happ, mainTaskHeader]
    rw [if_neg (by decide)]
    simp only [lines_w]
    have e : ∀ s : String, OneLine s → stringsSplit s '\n' = [s] := stringsSplit_of_oneLine
    rw [e _ (by decide), e _ (by decide), e _ (by decide), e _ (by decide), e _ (by decide),
      e _ (by decide), e _ (by decide), e _ (by decide)]
    simp
  · simp only [writeMainTask, extraPlatformFlags, List.foldl_nil, lines_ln, happ, mainTaskHeader]
    rw [if_neg (by decide)]
    simp only [lines_w]
    have e : ∀ s : String, OneLine s → stringsSplit s '\n' = [s] := stringsSplit_of_oneLine
    rw [e _ (by decide), e _ (by decide), e _ (by decide), e _ (by decide), e _ (by decide),
      e _ (by decide), e _ (by decide), e _ (by decide)]
    simp

theorem mem_orderedPairs (languages : List Language) (c s : Language) :
    (c, s) ∈ orderedPairs languages ↔ c ∈ languages ∧ s ∈ languages := by
  simp [orderedPairs, List.mem_flatMap]

theorem routeguideGate_iff (doTestOnPlatform : Language → Option Rule → String → Bool)
    (labels : List String) (ciPlatform : String) (c s : Language) :
    routeguideGate doTestOnPlatform labels ciPlatform c s = true
      ↔ doTestOnPlatform c none ciPlatform = true ∧ doTestOnPlatform s none ciPlatform = true
        ∧ routeguideLabel c s ∈ labels := by
  simp [routeguideGate, stringInSlice, and_assoc]

/-- C1: in `mustWriteBazelCIPresubmitYml`, the file opens with one task
`main_{P}` per CI platform, whose lines under `test_targets:` are the
routeguide matrix of `P`; for languages whose names hold no line break, the
matrix of `P` is the list of the entries of the ordered pairs (client,
server), client-major and server-minor, kept exactly when
`doTestOnPlatform(client, nil, P)` and `doTestOnPlatform(server, nil, P)` hold
and the label `//examples/routeguide:{client}_{server}` is one of the lines of
the allow-list file; so the entry of a pair (one no other pair of the list
shares) is emitted if and only if these three conditions hold. -/
theorem routeguide_entry_iff_gate
    (doTestOnPlatform : Language → Option Rule → String → Bool)
    (content : String) (files : List FileInfo) (languages : List Language)
    (hnames : ∀ l ∈ languages, OneLine l.Name) :
    (∃ rest, (mustWriteBazelCIPresubmitYml doTestOnPlatform content files languages).lines
        = ["---", "tasks:"]
          ++ ciPlatforms.flatMap (fun P => mainTaskHeader P
              ++ routeguideMatrix doTestOnPlatform (stringsSplit content '\n') languages P
              ++ [""])
          ++ rest)
    ∧ ∀ P : String,
        routeguideMatrix doTestOnPlatform (stringsSplit content '\n') languages P
          = ((orderedPairs languages).filter (fun p =>
                doTestOnPlatform p.1 none P && doTestOnPlatform p.2 none P
                  && decide (routeguideLabel p.1 p.2 ∈ stringsSplit content '\n'))).map
              (fun p => routeguideEntry p.1 p.2)
        ∧ ∀ c ∈ languages, ∀ s ∈ languages,
            (∀ c2 ∈ languages, ∀ s2 ∈ languages,
              routeguideEntry c2 s2 = routeguideEntry c s → c2 = c ∧ s2 = s) →
            (routeguideEntry c s
                ∈ routeguideMatrix doTestOnPlatform (stringsSplit content '\n') languages P
              ↔ doTestOnPlatform c none P = true ∧ doTestOnPlatform s none P = true
                ∧ routeguideLabel c s ∈ stringsSplit content '\n') := by
  have hmatrix : ∀ P : String,
      routeguideMatrix doTestOnPlatform (stringsSplit content '\n') languages P
        = ((orderedPairs languages).filter (fun p =>
            routeguideGate doTestOnPlatform (stringsSplit content '\n') P p.1 p.2)).map
            (fun p => routeguideEntry p.1 p.2) := by
    intro P
    have h := writeTestTargets_lines doTestOnPlatform (stringsSplit content '\n') languages P
      hnames {}
    simpa [routeguideMatrix] using h
  refine ⟨?_, fun P => ⟨?_, ?_⟩⟩
  · unfold mustWriteBazelCIPresubmitYml
    dsimp only
    have h1 := foldl_lines
      (writeMainTask doTestOnPlatform (stringsSplit content '\n') languages)
      (fun P => mainTaskHeader P
        ++ routeguideMatrix doTestOnPlatform (stringsSplit content '\n') languages P ++ [""])
      ciPlatforms
      (fun P hP o => writeMainTask_lines doTestOnPlatform _ languages o P hP)
      ((({} : LineWriter).w "---").w "tasks:")
    have h2 : ((({} : LineWriter).w "---").w "tasks:").lines = ["---", "tasks:"] := by decide
    rw [h2] at h1
    rw [← h1]
    have p1 := isPrefix_foldl
      (fun out lang => ciPlatforms.foldl (writeExampleTask doTestOnPlatform lang) out) languages
      (fun lang o => isPrefix_foldl _ ciPlatforms
        (fun P o2 => isPrefix_writeExampleTask doTestOnPlatform lang o2 P) o)
      (ciPlatforms.foldl (writeMainTask doTestOnPlatform (stringsSplit content '\n') languages)
        ((({} : LineWriter).w "---").w "tasks:"))
    have p2 := isPrefix_foldl (writeTestWorkspacesTask files) ciPlatforms
      (fun P o => isPrefix_writeTestWorkspacesTask files o P)
      (languages.foldl (fun out lang =>
        ciPlatforms.foldl (writeExampleTask doTestOnPlatform lang) out)
        (ciPlatforms.foldl
          (writeMainTask doTestOnPlatform (stringsSplit content '\n') languages)
          ((({} : LineWriter).w "---").w "tasks:")))
    obtain ⟨rest, hrest⟩ := p1.trans p2
    exact ⟨rest, hrest.symm⟩
  · rw [hmatrix P]
    congr 1
    apply List.filter_congr
    intro p _
    simp [routeguideGate, stringInSlice]
  · intro c hc s hs hinj
    rw [hmatrix P, ← routeguideGate_iff]
    constructor
    · intro hmem
      obtain ⟨p, hp, hpe⟩ := List.mem_map.1 hmem
      obtain ⟨hpmem, hpg⟩ := List.mem_filter.1 hp
      have hp2 := (mem_orderedPairs languages p.1 p.2).1 hpmem
      obtain ⟨e1, e2⟩ := hinj p.1 hp2.1 p.2 hp2.2 hpe
      rw [← e1, ← e2]
      exact hpg
    · intro hg
      exact List.mem_map.2 ⟨(c, s),
        List.mem_filter.2 ⟨(mem_orderedPairs languages c s).2 ⟨hc, hs⟩, hg⟩, rfl⟩

/-- C1, witness: with an allow-list holding only `//examples/routeguide:go_go`
and the languages go and python both run on `ubuntu2204`, the matrix of
`ubuntu2204` is the single entry `go_go`. -/
theorem routeguide_entry_iff_gate_witness :
    (∀ l ∈ [exampleGo, examplePython], OneLine l.Name)
    ∧ routeguideMatrix onUbuntuOnly (stringsSplit "//examples/routeguide:go_go" '\n')
        [exampleGo, examplePython] "ubuntu2204"
      = ["    - \"//examples/routeguide:go_go\""] := by
  have hnames : ∀ l ∈ [exampleGo, examplePython], OneLine l.Name := by decide
  refine ⟨hnames, ?_⟩
  rw [((routeguide_entry_iff_gate onUbuntuOnly "//examples/routeguide:go_go" []
    [exampleGo, examplePython] hnames).2 "ubuntu2204").1]
  decide

/-! ### The CI configuration: the example tasks -/

theorem platformHasCommand_iff (doTestOnPlatform : Language → Option Rule → String → Bool)
    (lang : Language) (ciPlatform : String) (rules : List Rule) :
    platformHasCommand doTestOnPlatform lang ciPlatform rules = true
      ↔ ∃ rule ∈ rules, doTestOnPlatform lang (some rule) ciPlatform = true := by
  induction rules with
  | nil => simp [platformHasCommand]
  | cons r rs ih =>
    unfold platformHasCommand
    by_cases hr : doTestOnPlatform lang (some r) ciPlatform = true
    · simp [hr]
    · simp [hr, ih]

theorem oneLine_exampleCommand (lang : Language) (rule : Rule) (ciPlatform : String)
    (hl : OneLine lang.Name) (hr : OneLine rule.Name) :
    OneLine (exampleCommand lang rule ciPlatform) := by
  unfold exampleCommand
  split <;> simp +decide [oneLine_append, hl, hr]

/-- The loop of lines 543-553 emits the commands of the rules to be run on
the platform, in the declared order of the rules. -/
theorem exampleCommands_lines (doTestOnPlatform : Language → Option Rule → String → Bool)
    (lang : Language) (ciPlatform : String) (rules : List Rule)
    (hl : OneLine lang.Name) (hr : ∀ r ∈ rules, OneLine r.Name) (out : LineWriter) :
    (rules.foldl (fun out rule =>
        if (!doTestOnPlatform lang (some rule) ciPlatform) = true then out
        else out.w (exampleCommand lang rule ciPlatform)) out).lines
      = out.lines ++ (rules.filter (fun rule => doTestOnPlatform lang (some rule) ciPlatform)).map
          (fun rule => exampleCommand lang rule ciPlatform) := by
  rw [foldl_lines _ (fun rule =>
    if doTestOnPlatform lang (some rule) ciPlatform = true
    then [exampleCommand lang rule ciPlatform] else [])]
  · rw [flatMap_gate_eq]
  · intro r hrm o
    by_cases h : doTestOnPlatform lang (some r) ciPlatform = true
    · simp [h, stringsSplit_of_oneLine _ (oneLine_exampleCommand lang r ciPlatform hl (hr r hrm))]
    · simp [h]

theorem exampleTaskLines_eq (doTestOnPlatform : Language → Option Rule → String → Bool)
    (lang : Language) (ciPlatform : String) (hP : ciPlatform ∈ ciPlatforms)
    (hl : OneLine lang.Name) (hr : ∀ r ∈ lang.Rules, OneLine r.Name) :
    exampleTaskLines doTestOnPlatform lang ciPlatform
      = if platformHasCommand doTestOnPlatform lang ciPlatform lang.Rules = true then
          exampleTaskHeader lang ciPlatform
            ++ (lang.Rules.filter (fun rule => doTestOnPlatform lang (some rule) ciPlatform)).map
                (fun rule => "     - make " ++ lang.Name ++ "_" ++ rule.Name ++ "_example")
            ++ [""]
        else [] := by
  unfold exampleTaskLines writeExampleTask
  by_cases hc : platformHasCommand doTestOnPlatform lang ciPlatform lang.Rules = true
  · simp only [hc, Bool.not_true, Bool.false_eq_true, if_false, if_true]
    simp only [ciPlatforms, List.mem_cons, List.mem_singleton, List.not_mem_nil, or_false] at hP
    rcases hP with rfl | rfl
    · rw [if_neg (by decide), if_neg (by decide)]
      simp only [extraPlatformFlags, List.foldl_nil, lines_ln]
      rw [exampleCommands_lines doTestOnPlatform lang _ lang.Rules hl hr]
      simp +decide [exampleTaskHeader, exampleCommand, stringsSplit_of_oneLine,
        oneLine_append, hl]
    · rw [if_neg (by decide), if_neg (by decide)]
      simp only [extraPlatformFlags, List.foldl_nil, lines_ln]
      rw [exampleCommands_lines doTestOnPlatform lang _ lang.Rules hl hr]
      simp +decide [exampleTaskHeader, exampleCommand, stringsSplit_of_oneLine,
        oneLine_append, hl]
  · simp [hc]

theorem writeExampleTask_hom (doTestOnPlatform : Language → Option Rule → String → Bool)
    (lang : Language) (out : LineWriter) (ciPlatform : String) :
    (writeExampleTask doTestOnPlatform lang out ciPlatform).lines
      = out.lines ++ exampleTaskLines doTestOnPlatform lang ciPlatform := by
  obtain ⟨cmds, hcmd⟩ : ∃ cmds, ∀ o : LineWriter,
      (lang.Rules.foldl (fun out rule =>
        if (!doTestOnPlatform lang (some rule) ciPlatform) = true then out
        else out.w (exampleCommand lang rule ciPlatform)) o).lines = o.lines ++ cmds :=
    ⟨_, fun o => foldl_lines_hom _ _ (fun r _ o2 => by split <;> simp) o⟩
  unfold exampleTaskLines writeExampleTask
  by_cases hc : platformHasCommand doTestOnPlatform lang ciPlatform lang.Rules = true
  · by_cases hw : ciPlatform = "windows"
    · simp only [hc, Bool.not_true, Bool.false_eq_true, if_false, if_pos hw, lines_ln, hcmd,
        lines_w, lines_empty, List.append_assoc, List.nil_append]
    · simp only [hc, Bool.not_true, Bool.false_eq_true, if_false, if_neg hw, lines_ln, hcmd,
        lines_w, lines_empty, List.append_assoc, List.nil_append, extraPlatformFlags,
        List.foldl_nil]
  · simp [hc]

theorem writeTestWorkspacesTask_hom (files : List FileInfo) (out : LineWriter)
    (ciPlatform : String) :
    (writeTestWorkspacesTask files out ciPlatform).lines
      = out.lines ++ testWorkspacesTaskLines files ciPlatform := by
  unfold testWorkspacesTaskLines writeTestWorkspacesTask
  by_cases hw : ciPlatform = "windows"
  · obtain ⟨cmds, hcmd⟩ : ∃ cmds, ∀ o : LineWriter,
        ((findTestWorkspaceNames files).foldl (fun out testWorkspace =>
          out.w ("     - make.exe test_workspace_" ++ testWorkspace)) o).lines
          = o.lines ++ cmds :=
      ⟨_, fun o => foldl_lines_hom _ _ (fun r _ o2 => by simp) o⟩
    simp only [if_pos hw, lines_ln, hcmd, lines_w, lines_empty, List.append_assoc,
      List.nil_append]
  · obtain ⟨cmds, hcmd⟩ : ∃ cmds, ∀ o : LineWriter,
        ((findTestWorkspaceNames files).foldl (fun out testWorkspace =>
          out.w ("     - make test_workspace_" ++ testWorkspace)) o).lines
          = o.lines ++ cmds :=
      ⟨_, fun o => foldl_lines_hom _ _ (fun r _ o2 => by simp) o⟩
    simp only [if_neg hw, lines_ln, hcmd, lines_w, lines_empty, List.append_assoc,
      List.nil_append]

/-- The file `.bazelci/presubmit.yml` is its two opening lines, the tasks
`main_{P}`, the example tasks of every language on every platform, and the
test-workspace tasks, in this order. -/
theorem presubmit_lines (doTestOnPlatform : Language → Option Rule → String → Bool)
    (content : String) (files : List FileInfo) (languages : List Language) :
    (mustWriteBazelCIPresubmitYml doTestOnPlatform content files languages).lines
      = ["---", "tasks:"]
        ++ ciPlatforms.flatMap (fun P => mainTaskHeader P
            ++ routeguideMatrix doTestOnPlatform (stringsSplit content '\n') languages P
            ++ [""])
        ++ languages.flatMap (fun lang =>
            ciPlatforms.flatMap (fun P => exampleTaskLines doTestOnPlatform lang P))
        ++ ciPlatforms.flatMap (fun P => testWorkspacesTaskLines files P) := by
  unfold mustWriteBazelCIPresubmitYml
  dsimp only
  rw [foldl_lines (writeTestWorkspacesTask files) (fun P => testWorkspacesTaskLines files P)
      ciPlatforms (fun P _ o => writeTestWorkspacesTask_hom files o P),
    foldl_lines (fun out lang => ciPlatforms.foldl (writeExampleTask doTestOnPlatform lang) out)
      (fun lang => ciPlatforms.flatMap (fun P => exampleTaskLines doTestOnPlatform lang P))
      languages
      (fun lang _ o => foldl_lines _ _ ciPlatforms
        (fun P _ o2 => writeExampleTask_hom doTestOnPlatform lang o2 P) o),
    foldl_lines (writeMainTask doTestOnPlatform (stringsSplit content '\n') languages)
      (fun P => mainTaskHeader P
        ++ routeguideMatrix doTestOnPlatform (stringsSplit content '\n') languages P ++ [""])
      ciPlatforms
      (fun P hP o => writeMainTask_lines doTestOnPlatform _ languages o P hP)]
  have h2 : ((({} : LineWriter).w "---").w "tasks:").lines = ["---", "tasks:"] := by decide
  rw [h2]

/-- C8: in `mustWriteBazelCIPresubmitYml`, the example tasks of the file are
the lines the loop body emits for each language and each CI platform, in
order; for a language `L` (its name and rule names without line break) and a
CI platform `P`, the header `  {L.Name}_{P}_examples:` is among these lines if
and only if some rule `R` of `L.Rules` has `doTestOnPlatform(L, R, P)`; in
that case the lines are the header of the task, then one command
`make {L.Name}_{R.Name}_example` for each rule with `doTestOnPlatform(L, R, P)`
and no other, in the declared order of `L.Rules`, then a blank line; otherwise
nothing is emitted. -/
theorem example_task_iff_eligible_rule
    (doTestOnPlatform : Language → Option Rule → String → Bool)
    (content : String) (files : List FileInfo) (languages : List Language)
    (hnames : ∀ l ∈ languages, OneLine l.Name ∧ ∀ r ∈ l.Rules, OneLine r.Name) :
    (mustWriteBazelCIPresubmitYml doTestOnPlatform content files languages).lines
      = ["---", "tasks:"]
        ++ ciPlatforms.flatMap (fun P => mainTaskHeader P
            ++ routeguideMatrix doTestOnPlatform (stringsSplit content '\n') languages P
            ++ [""])
        ++ languages.flatMap (fun lang =>
            ciPlatforms.flatMap (fun P => exampleTaskLines doTestOnPlatform lang P))
        ++ ciPlatforms.flatMap (fun P => testWorkspacesTaskLines files P)
    ∧ ∀ L ∈ languages, ∀ P ∈ ciPlatforms,
        (("  " ++ L.Name ++ "_" ++ P ++ "_examples:") ∈ exampleTaskLines doTestOnPlatform L P
          ↔ ∃ R ∈ L.Rules, doTestOnPlatform L (some R) P = true)
        ∧ ((∃ R ∈ L.Rules, doTestOnPlatform L (some R) P = true) →
            exampleTaskLines doTestOnPlatform L P
              = exampleTaskHeader L P
                ++ (L.Rules.filter (fun R => doTestOnPlatform L (some R) P)).map
                    (fun R => "     - make " ++ L.Name ++ "_" ++ R.Name ++ "_example")
                ++ [""])
        ∧ ((¬ ∃ R ∈ L.Rules, doTestOnPlatform L (some R) P = true) →
            exampleTaskLines doTestOnPlatform L P = []) := by
  refine ⟨presubmit_lines doTestOnPlatform content files languages, ?_⟩
  intro L hL P hP
  have heq := exampleTaskLines_eq doTestOnPlatform L P hP (hnames L hL).1 (hnames L hL).2
  simp only [platformHasCommand_iff] at heq
  refine ⟨?_, ?_, ?_⟩
  · by_cases hex : ∃ R ∈ L.Rules, doTestOnPlatform L (some R) P = true
    · rw [heq, if_pos hex]
      simp [hex, exampleTaskHeader]
    · rw [heq, if_neg hex]
      simp [hex]
  · intro hex
    rw [heq, if_pos hex]
  · intro hex
    rw [heq, if_neg hex]

/-- C8, witness: for the language go run on `ubuntu2204`, the task header is
emitted and the commands are those of its two rules, in declared order. -/
theorem example_task_iff_eligible_rule_witness :
    (∀ l ∈ [exampleGo], OneLine l.Name ∧ ∀ r ∈ l.Rules, OneLine r.Name)
    ∧ exampleTaskLines onUbuntuOnly exampleGo "ubuntu2204"
      = ["  go_ubuntu2204_examples:",
         "    name: go examples",
         "    platform: ubuntu2204",
         "    environment:",
         "      BAZEL_EXTRA_FLAGS: \"--cxxopt=-std=c++17 --host_cxxopt=-std=c++17\"",
         "    shell_commands:",
         "     - set -x",
         "     - make go_go_proto_library_example",
         "     - make go_go_proto_compile_example",
         ""] := by
  have hnames : ∀ l ∈ [exampleGo], OneLine l.Name ∧ ∀ r ∈ l.Rules, OneLine r.Name := by
    decide
  refine ⟨hnames, ?_⟩
  rw [((example_task_iff_eligible_rule onUbuntuOnly "" [] [exampleGo] hnames).2
    exampleGo (by decide) "ubuntu2204" (by decide)).2.1 (by decide)]
  decide

/-! ### `defs.bzl` -/

theorem foldl_collect {α : Type} (f : α → String) (l : List α) (init : List String) :
    l.foldl (fun acc x => acc ++ [f x]) init = init ++ l.map f := by
  induction l generalizing init with
  | nil => simp
  | cons x xs ih => simp [ih]

theorem sortStrings_perm (l : List String) : (sortStrings l).Perm l :=
  List.perm_insertionSort _ l

theorem sortStrings_sorted (l : List String) : (sortStrings l).Sorted StrLe := by
  haveI : IsTotal String (fun a b => a.data ≤ b.data) := ⟨fun a b => le_total a.data b.data⟩
  haveI : IsTrans String (fun a b => a.data ≤ b.data) :=
    ⟨fun a b c h1 h2 => le_trans h1 h2⟩
  exact List.sorted_insertionSort (fun a b : String => a.data ≤ b.data) l

/-- The result of `sort.Strings` depends only on the strings it is given, not
on their order. -/
theorem sortStrings_eq_of_perm (l1 l2 : List String) (h : l1.Perm l2) :
    sortStrings l1 = sortStrings l2 := by
  haveI : IsAntisymm String StrLe :=
    ⟨fun a b h1 h2 => String.ext (le_antisymm h1 h2)⟩
  exact List.eq_of_perm_of_sorted
    (((sortStrings_perm l1).trans h).trans (sortStrings_perm l2).symm)
    (sortStrings_sorted l1) (sortStrings_sorted l2)

theorem writeRuleLoads_hom (lang : Language) (out : LineWriter) :
    (writeRuleLoads lang out).lines = out.lines ++ ruleLoadLines lang := by
  unfold ruleLoadLines writeRuleLoads
  exact foldl_lines_hom _ _ (fun _ _ _ => by simp) out

theorem writeExtraDefLoads_hom (extraDefsSeq : List (String × String)) (out : LineWriter) :
    (writeExtraDefLoads extraDefsSeq out).lines
      = out.lines ++ extraDefLoadLines extraDefsSeq := by
  unfold extraDefLoadLines writeExtraDefLoads
  exact foldl_lines_hom _ _ (fun _ _ _ => by simp) out

theorem writeExports_hom (lang : Language) (out : LineWriter) :
    (writeExports lang out).lines = out.lines ++ exportLines lang := by
  obtain ⟨body, hbody⟩ : ∃ body, ∀ o : LineWriter,
      (lang.Rules.foldl (fun out rule => out.w (exportLine rule.Name rule.Name)) o).lines
        = o.lines ++ body :=
    ⟨_, fun o => foldl_lines_hom _ _ (fun _ _ _ => by simp) o⟩
  unfold exportLines writeExports
  simp only [lines_ln, hbody, lines_w, lines_empty, List.append_assoc, List.nil_append]

theorem writeAliases_hom (lang : Language) (aliasesSeq : List (String × String))
    (out : LineWriter) :
    (writeAliases lang aliasesSeq out).lines = out.lines ++ aliasLines lang aliasesSeq := by
  obtain ⟨body, hbody⟩ : ∃ body, ∀ o : LineWriter,
      ((sortStrings (aliasesSeq.foldl (fun aliases a => aliases ++ [a.1]) [])).foldl
        (fun out aliasName => out.w (exportLine aliasName (mapIndex lang.Aliases aliasName)))
        o).lines = o.lines ++ body :=
    ⟨_, fun o => foldl_lines_hom _ _ (fun _ _ _ => by simp) o⟩
  unfold aliasLines writeAliases
  by_cases h : lang.Aliases.length > 0
  · simp only [if_pos h, lines_ln, hbody, lines_w, lines_empty, List.append_assoc,
      List.nil_append]
  · simp only [if_neg h, lines_empty, List.append_nil]

theorem writeExtraDefs_hom (lang : Language) (extraDefsSeq : List (String × String))
    (out : LineWriter) :
    (writeExtraDefs lang extraDefsSeq out).lines
      = out.lines ++ extraDefLines lang extraDefsSeq := by
  obtain ⟨body, hbody⟩ : ∃ body, ∀ o : LineWriter,
      (extraDefsSeq.foldl (fun out d => out.w (exportLine d.1 d.1)) o).lines
        = o.lines ++ body :=
    ⟨_, fun o => foldl_lines_hom _ _ (fun _ _ _ => by simp) o⟩
  unfold extraDefLines writeExtraDefs
  by_cases h : lang.ExtraDefs.length > 0
  · simp only [if_pos h, lines_ln, hbody, lines_w, lines_empty, List.append_assoc,
      List.nil_append]
  · simp only [if_neg h, lines_empty, List.append_nil]

/-- The file `defs.bzl` is its opening line, a blank line, the `load` lines
of the rules, those of the extra defs, a blank line, then the sections of the
exports, of the aliases and of the extra defs. -/
theorem defs_lines (lang : Language)
    (extraDefsSeq1 aliasesSeq extraDefsSeq2 : List (String × String)) :
    (mustWriteLanguageDefs lang extraDefsSeq1 aliasesSeq extraDefsSeq2).lines
      = docLines lang ++ [""] ++ ruleLoadLines lang ++ extraDefLoadLines extraDefsSeq1 ++ [""]
        ++ exportLines lang ++ aliasLines lang aliasesSeq
        ++ extraDefLines lang extraDefsSeq2 := by
  unfold mustWriteLanguageDefs docLines
  simp only [writeExtraDefs_hom, writeAliases_hom, writeExports_hom, lines_ln,
    writeExtraDefLoads_hom, writeRuleLoads_hom, lines_w, lines_empty, List.append_assoc,
    List.nil_append]

theorem oneLine_ruleLoadLine (n : String) (h : OneLine n) : OneLine (ruleLoadLine n) := by
  unfold ruleLoadLine
  simp +decide [oneLine_append, h]

theorem oneLine_exportLine (a b : String) (ha : OneLine a) (hb : OneLine b) :
    OneLine (exportLine a b) := by
  unfold exportLine
  simp +decide [oneLine_append, ha, hb]

/-- A loop that writes one line per element writes the lines of the
elements, in order. -/
theorem foldl_w_lines {α : Type} (f : α → String) (l : List α)
    (h : ∀ x ∈ l, OneLine (f x)) (out : LineWriter) :
    (l.foldl (fun out x => out.w (f x)) out).lines = out.lines ++ l.map f := by
  rw [foldl_lines _ (fun x => [f x]) l
    (fun x hx o => by simp [stringsSplit_of_oneLine _ (h x hx)])]
  congr 1
  clear h
  induction l with
  | nil => rfl
  | cons x xs ih => simp [List.flatMap_cons, ih]

theorem ruleLoadLines_eq (lang : Language) (hr : ∀ r ∈ lang.Rules, OneLine r.Name) :
    ruleLoadLines lang = (sortStrings (ruleNamesOf lang)).map ruleLoadLine := by
  unfold ruleLoadLines writeRuleLoads ruleNamesOf
  dsimp only
  rw [foldl_collect (fun rule : Rule => rule.Name) lang.Rules [], List.nil_append,
    foldl_w_lines ruleLoadLine]
  · simp
  · intro n hn
    have hmem : n ∈ lang.Rules.map (fun rule => rule.Name) :=
      (sortStrings_perm _).subset hn
    obtain ⟨r, hrm, rfl⟩ := List.mem_map.1 hmem
    exact oneLine_ruleLoadLine _ (hr r hrm)

theorem exportLines_eq (lang : Language) (hl : OneLine lang.Name)
    (hr : ∀ r ∈ lang.Rules, OneLine r.Name) :
    exportLines lang
      = ["# Export " ++ lang.Name ++ " rules"]
        ++ lang.Rules.map (fun rule => exportLine rule.Name rule.Name) ++ [""] := by
  unfold exportLines writeExports
  dsimp only
  rw [lines_ln, foldl_w_lines (fun rule : Rule => exportLine rule.Name rule.Name)]
  · simp +decide [stringsSplit_of_oneLine, oneLine_append, hl]
  · intro r hrm
    exact oneLine_exportLine _ _ (hr r hrm) (hr r hrm)

theorem mapIndex_mem (m : List (String × String)) (k : String)
    (h : k ∈ m.map Prod.fst) : (k, mapIndex m k) ∈ m := by
  induction m with
  | nil => simp at h
  | cons e es ih =>
    obtain ⟨a, b⟩ := e
    by_cases hk : k = a
    · subst hk
      simp [mapIndex, List.lookup]
    · have hk2 : (k == a) = false := by simpa using hk
      have h2 : k ∈ es.map Prod.fst := by
        simp only [List.map_cons, List.mem_cons] at h
        rcases h with h | h
        · exact absurd h hk
        · exact h
      have := ih h2
      simp only [mapIndex, List.lookup, hk2] at this ⊢
      exact List.mem_cons_of_mem _ this

theorem aliasLines_eq (lang : Language) (aliasesSeq : List (String × String))
    (hperm : aliasesSeq.Perm lang.Aliases)
    (ha : ∀ e ∈ lang.Aliases, OneLine e.1 ∧ OneLine e.2) :
    aliasLines lang aliasesSeq
      = if lang.Aliases.length > 0 then
          ["# Aliases"]
            ++ (sortStrings (lang.Aliases.map Prod.fst)).map
                (fun a => exportLine a (mapIndex lang.Aliases a))
            ++ [""]
        else [] := by
  unfold aliasLines writeAliases
  by_cases h : lang.Aliases.length > 0
  · simp only [if_pos h]
    rw [lines_ln, foldl_collect (fun a : String × String => a.1) aliasesSeq [],
      List.nil_append, sortStrings_eq_of_perm _ _ (hperm.map Prod.fst),
      foldl_w_lines (fun a => exportLine a (mapIndex lang.Aliases a))]
    · simp +decide [stringsSplit_of_oneLine]
    · intro a hmem
      have hk : a ∈ lang.Aliases.map Prod.fst := (sortStrings_perm _).subset hmem
      have hm := mapIndex_mem lang.Aliases a hk
      exact oneLine_exportLine _ _ (ha _ hm).1 (ha _ hm).2
  · simp only [if_neg h, lines_empty]

theorem exportLine_injective (a b : String) (h : exportLine a a = exportLine b b) :
    a = b := by
  unfold exportLine at h
  have hd := congrArg String.data h
  simp only [String.data_append] at hd
  have hlen := congrArg List.length hd
  simp only [List.length_append] at hlen
  have hab : a.data.length = b.data.length := by omega
  have := List.append_inj hd (by simp [hab])
  exact String.ext (List.append_inj this.1 hab).1

/-- C2, the defect: with the same language record, two runs in which the
`range` over the map `ExtraDefs` visits the two entries in opposite orders
write different `defs.bzl` files.  The order of the `range` over `Aliases`
does not matter (the keys are sorted), that over `ExtraDefs` does. -/
theorem defs_depend_on_extraDefs_order :
    (mustWriteLanguageDefs exampleExtra
        [("alpha_def", "//js:alpha.bzl"), ("beta_def", "//js:beta.bzl")] []
        [("alpha_def", "//js:alpha.bzl"), ("beta_def", "//js:beta.bzl")]).lines
      = ["\"\"\"js protobuf and grpc rules.\"\"\"",
         "",
         "load(\":js_proto_compile.bzl\", _js_proto_compile = \"js_proto_compile\")",
         "load(\"//js:alpha.bzl\", _alpha_def = \"alpha_def\")  # buildifier: disable=same-origin-load # buildifier: disable=out-of-order-load",
         "load(\"//js:beta.bzl\", _beta_def = \"beta_def\")  # buildifier: disable=same-origin-load # buildifier: disable=out-of-order-load",
         "",
         "# Export js rules",
         "js_proto_compile = _js_proto_compile",
         "",
         "# Extra defs",
         "alpha_def = _alpha_def",
         "beta_def = _beta_def",
         ""]
    ∧ (mustWriteLanguageDefs exampleExtra
        [("beta_def", "//js:beta.bzl"), ("alpha_def", "//js:alpha.bzl")] []
        [("beta_def", "//js:beta.bzl"), ("alpha_def", "//js:alpha.bzl")]).lines
      = ["\"\"\"js protobuf and grpc rules.\"\"\"",
         "",
         "load(\":js_proto_compile.bzl\", _js_proto_compile = \"js_proto_compile\")",
         "load(\"//js:beta.bzl\", _beta_def = \"beta_def\")  # buildifier: disable=same-origin-load # buildifier: disable=out-of-order-load",
         "load(\"//js:alpha.bzl\", _alpha_def = \"alpha_def\")  # buildifier: disable=same-origin-load # buildifier: disable=out-of-order-load",
         "",
         "# Export js rules",
         "js_proto_compile = _js_proto_compile",
         "",
         "# Extra defs",
         "beta_def = _beta_def",
         "alpha_def = _alpha_def",
         ""]
    ∧ [("beta_def", "//js:beta.bzl"), ("alpha_def", "//js:alpha.bzl")].Perm
        exampleExtra.ExtraDefs
    ∧ mustWriteLanguageDefs exampleExtra exampleExtra.ExtraDefs [] exampleExtra.ExtraDefs
      ≠ mustWriteLanguageDefs exampleExtra
          [("beta_def", "//js:beta.bzl"), ("alpha_def", "//js:alpha.bzl")] []
          [("beta_def", "//js:beta.bzl"), ("alpha_def", "//js:alpha.bzl")] := by
  refine ⟨by decide, by decide, ?_, by decide⟩
  exact List.Perm.swap _ _ _

/-- C3, counterexample: for a language whose rules are declared as
`cpp_proto_compile`, `cpp_grpc_compile`, the re-export lines of `defs.bzl`
come in this declared order, which is not the lexicographic one (the `load`
lines above them are sorted). -/
theorem export_lines_not_sorted :
    (mustWriteLanguageDefs exampleCpp [] exampleCpp.Aliases []).lines
      = ["\"\"\"cpp protobuf and grpc rules.\"\"\"",
         "",
         "load(\":cpp_grpc_compile.bzl\", _cpp_grpc_compile = \"cpp_grpc_compile\")",
         "load(\":cpp_proto_compile.bzl\", _cpp_proto_compile = \"cpp_proto_compile\")",
         "",
         "# Export cpp rules",
         "cpp_proto_compile = _cpp_proto_compile",
         "cpp_grpc_compile = _cpp_grpc_compile",
         "",
         "# Aliases",
         "cc_grpc_compile = _cpp_grpc_compile",
         "cc_proto_compile = _cpp_proto_compile",
         ""]
    ∧ (ruleNamesOf exampleCpp).Nodup
    ∧ ¬ StrLe "cpp_proto_compile" "cpp_grpc_compile"
    ∧ exportLines exampleCpp
      ≠ ["# Export cpp rules"]
        ++ (sortStrings (ruleNamesOf exampleCpp)).map (fun n => exportLine n n) ++ [""] := by
  refine ⟨by decide, by decide, ?_, by decide⟩
  unfold StrLe
  decide

/-- C3, amended: for a language `L` (its name and rule names without line
break, the rule names unique), the section `# Export {L} rules` of `defs.bzl`
holds exactly one re-export line `R = _R` per rule of `L.Rules`, in the
declared order of `L.Rules`. -/
theorem export_lines_declared_order (lang : Language)
    (extraDefsSeq1 aliasesSeq extraDefsSeq2 : List (String × String))
    (hl : OneLine lang.Name) (hr : ∀ r ∈ lang.Rules, OneLine r.Name)
    (hnodup : (ruleNamesOf lang).Nodup) :
    (mustWriteLanguageDefs lang extraDefsSeq1 aliasesSeq extraDefsSeq2).lines
      = docLines lang ++ [""] ++ ruleLoadLines lang ++ extraDefLoadLines extraDefsSeq1 ++ [""]
        ++ exportLines lang ++ aliasLines lang aliasesSeq
        ++ extraDefLines lang extraDefsSeq2
    ∧ exportLines lang
      = ["# Export " ++ lang.Name ++ " rules"]
        ++ lang.Rules.map (fun rule => exportLine rule.Name rule.Name) ++ [""]
    ∧ ∀ r ∈ lang.Rules,
        (lang.Rules.map (fun rule => exportLine rule.Name rule.Name)).count
          (exportLine r.Name r.Name) = 1 := by
  refine ⟨defs_lines lang _ _ _, exportLines_eq lang hl hr, ?_⟩
  intro r hrm
  have hmap : lang.Rules.map (fun rule => exportLine rule.Name rule.Name)
      = (ruleNamesOf lang).map (fun n => exportLine n n) := by
    simp [ruleNamesOf, List.map_map, Function.comp_def]
  rw [hmap]
  apply List.count_eq_one_of_mem
  · exact hnodup.map_on (fun a _ b _ h => exportLine_injective a b h)
  · exact List.mem_map.2 ⟨r.Name, List.mem_map.2 ⟨r, hrm, rfl⟩, rfl⟩

/-- C3, witness: the export section of the language `cpp`. -/
theorem export_lines_declared_order_witness :
    (OneLine exampleCpp.Name ∧ (∀ r ∈ exampleCpp.Rules, OneLine r.Name)
      ∧ (ruleNamesOf exampleCpp).Nodup)
    ∧ exportLines exampleCpp
      = ["# Export cpp rules", "cpp_proto_compile = _cpp_proto_compile",
         "cpp_grpc_compile = _cpp_grpc_compile", ""] := by
  have h1 : OneLine exampleCpp.Name := by decide
  have h2 : ∀ r ∈ exampleCpp.Rules, OneLine r.Name := by decide
  have h3 : (ruleNamesOf exampleCpp).Nodup := by decide
  refine ⟨⟨h1, h2, h3⟩, ?_⟩
  rw [(export_lines_declared_order exampleCpp [] exampleCpp.Aliases [] h1 h2 h3).2.1]
  decide

/-- C4: for a language `L` (rule names, alias names and alias targets without
line break), the rule `load` lines of `defs.bzl` are the lines
`load(":R.bzl", _R = "R")` of the rule names sorted: a permutation of the
names of `L.Rules`, in ascending order, the same for every declared order of
the rules; and when `L.Aliases` is not empty the section `# Aliases` holds one
line `A = _T` per alias `A`, in ascending order of the alias names, with
`T = L.Aliases[A]`, whatever the order in which the map is visited. -/
theorem load_and_alias_lines_sorted (lang : Language)
    (extraDefsSeq1 aliasesSeq extraDefsSeq2 : List (String × String))
    (hr : ∀ r ∈ lang.Rules, OneLine r.Name)
    (ha : ∀ e ∈ lang.Aliases, OneLine e.1 ∧ OneLine e.2)
    (hperm : aliasesSeq.Perm lang.Aliases) :
    (mustWriteLanguageDefs lang extraDefsSeq1 aliasesSeq extraDefsSeq2).lines
      = docLines lang ++ [""] ++ ruleLoadLines lang ++ extraDefLoadLines extraDefsSeq1 ++ [""]
        ++ exportLines lang ++ aliasLines lang aliasesSeq
        ++ extraDefLines lang extraDefsSeq2
    ∧ ruleLoadLines lang = (sortStrings (ruleNamesOf lang)).map ruleLoadLine
    ∧ (sortStrings (ruleNamesOf lang)).Perm (ruleNamesOf lang)
    ∧ (sortStrings (ruleNamesOf lang)).Sorted StrLe
    ∧ (∀ lang2 : Language, lang2.Rules.Perm lang.Rules →
        sortStrings (ruleNamesOf lang2) = sortStrings (ruleNamesOf lang))
    ∧ (lang.Aliases ≠ [] →
        aliasLines lang aliasesSeq
          = ["# Aliases"]
            ++ (sortStrings (lang.Aliases.map Prod.fst)).map
                (fun a => exportLine a (mapIndex lang.Aliases a))
            ++ [""])
    ∧ (sortStrings (lang.Aliases.map Prod.fst)).Perm (lang.Aliases.map Prod.fst)
    ∧ (sortStrings (lang.Aliases.map Prod.fst)).Sorted StrLe
    ∧ ∀ a ∈ lang.Aliases.map Prod.fst, (a, mapIndex lang.Aliases a) ∈ lang.Aliases := by
  refine ⟨defs_lines lang _ _ _, ruleLoadLines_eq lang hr, sortStrings_perm _,
    sortStrings_sorted _, ?_, ?_, sortStrings_perm _, sortStrings_sorted _,
    fun a h => mapIndex_mem _ a h⟩
  · intro lang2 h2
    exact sortStrings_eq_of_perm _ _ (h2.map _)
  · intro hne
    rw [aliasLines_eq lang aliasesSeq hperm ha, if_pos (List.length_pos.2 hne)]

/-- C4, witness: the `load` lines and the alias lines of the language `cpp`,
whose rules and aliases are declared in descending order. -/
theorem load_and_alias_lines_sorted_witness :
    ((∀ r ∈ exampleCpp.Rules, OneLine r.Name)
      ∧ (∀ e ∈ exampleCpp.Aliases, OneLine e.1 ∧ OneLine e.2)
      ∧ exampleCpp.Aliases.Perm exampleCpp.Aliases)
    ∧ ruleLoadLines exampleCpp
      = ["load(\":cpp_grpc_compile.bzl\", _cpp_grpc_compile = \"cpp_grpc_compile\")",
         "load(\":cpp_proto_compile.bzl\", _cpp_proto_compile = \"cpp_proto_compile\")"]
    ∧ aliasLines exampleCpp exampleCpp.Aliases
      = ["# Aliases", "cc_grpc_compile = _cpp_grpc_compile",
         "cc_proto_compile = _cpp_proto_compile", ""] := by
  have h1 : ∀ r ∈ exampleCpp.Rules, OneLine r.Name := by decide
  have h2 : ∀ e ∈ exampleCpp.Aliases, OneLine e.1 ∧ OneLine e.2 := by decide
  have h3 : exampleCpp.Aliases.Perm exampleCpp.Aliases := List.Perm.refl _
  have h := load_and_alias_lines_sorted exampleCpp [] exampleCpp.Aliases [] h1 h2 h3
  refine ⟨⟨h1, h2, h3⟩, ?_, ?_⟩
  · rw [h.2.1]
    decide
  · rw [h.2.2.2.2.2.1 (by decide)]
    decide

/-! ### The example `MODULE.bazel` -/

theorem splitOnChar_append_sep (sep : Char) (a b : List Char) :
    splitOnChar sep (a ++ sep :: b) = splitOnChar sep a ++ splitOnChar sep b := by
  induction a with
  | nil => simp [splitOnChar]
  | cons c cs ih =>
    by_cases hc : c = sep
    · simp [splitOnChar, hc, ih]
    · simp only [List.cons_append, splitOnChar, hc, if_false]
      change (match splitOnChar sep (cs ++ sep :: b) with
        | [] => [[c]]
        | seg :: segs => (c :: seg) :: segs) = _
      rw [ih]
      cases h : splitOnChar sep cs with
      | nil => exact absurd h (splitOnChar_ne_nil sep cs)
      | cons seg segs => simp

theorem stringsSplit_snoc_line (s l : String) (h : OneLine l) :
    stringsSplit (s ++ "\n" ++ l) '\n' = stringsSplit s '\n' ++ [l] := by
  have hd : (s ++ "\n" ++ l).data = s.data ++ '\n' :: l.data := by
    simp [String.data_append]
  unfold stringsSplit
  rw [hd, splitOnChar_append_sep, splitOnChar_of_not_mem _ _ h]
  simp

theorem stringsSplit_appendLines (s : String) (ls : List String)
    (h : ∀ l ∈ ls, OneLine l) :
    stringsSplit (appendLines s ls) '\n' = stringsSplit s '\n' ++ ls := by
  induction ls generalizing s with
  | nil => simp [appendLines]
  | cons l ls ih =>
    have h1 := ih (s ++ "\n" ++ l) (fun x hx => h x (List.mem_cons_of_mem _ hx))
    simp only [appendLines, List.foldl_cons] at h1 ⊢
    rw [h1, stringsSplit_snoc_line s l (h l (List.mem_cons_self _ _))]
    simp

theorem appendLines_append (s : String) (ls ms : List String) :
    appendLines (appendLines s ls) ms = appendLines s (ls ++ ms) := by
  simp [appendLines, List.foldl_append]

theorem oneLine_stringsRepeat (s : String) (h : OneLine s) (n : Nat) :
    OneLine (stringsRepeat s n) := by
  induction n with
  | zero => simp +decide [stringsRepeat]
  | succ n ih => simp [stringsRepeat, oneLine_append, h, ih]

theorem oneLine_rootPathOf (lang : Language) : OneLine (rootPathOf lang) :=
  oneLine_stringsRepeat _ (by decide) _

theorem oneLine_depLine (d : String) (h : OneLine d) : OneLine (depLine d) := by
  unfold depLine
  simp +decide [oneLine_append, h]

theorem oneLine_overrideBlock (m path : String) (hm : OneLine m) (hp : OneLine path) :
    ∀ l ∈ overrideBlock m path, OneLine l := by
  intro l hl
  simp only [overrideBlock, List.mem_cons, List.mem_singleton, List.not_mem_nil,
    or_false] at hl
  rcases hl with rfl | rfl | rfl | rfl <;> simp +decide [oneLine_append, hm, hp]

/-- The two texts the loop of lines 191-199 builds. -/
theorem foldl_deps_eq (rootPath : String) (deps : List String) (a b : String) :
    deps.foldl (fun (acc : String × String) dep =>
        (acc.1 ++ depBazelDep dep, acc.2 ++ depLocalOverride rootPath dep)) (a, b)
      = (appendLines a (deps.map depLine),
         appendLines b (deps.flatMap (fun dep =>
           "" :: overrideBlock ("rules_proto_grpc_" ++ dep) (rootPath ++ "modules/" ++ dep)))) := by
  induction deps generalizing a b with
  | nil => simp [appendLines]
  | cons d ds ih =>
    rw [List.foldl_cons, ih]
    have e1 : a ++ depBazelDep d = a ++ "\n" ++ depLine d := by
      apply String.ext
      simp [depBazelDep, depLine, String.data_append]
    have e2 : b ++ depLocalOverride rootPath d
        = appendLines b ("" :: overrideBlock ("rules_proto_grpc_" ++ d)
            (rootPath ++ "modules/" ++ d)) := by
      apply String.ext
      simp [depLocalOverride, overrideBlock, appendLines, String.data_append]
    rw [e1, e2, appendLines_append]
    simp [appendLines, List.flatMap_cons]

theorem appendLines_left (s t : String) (ls : List String) :
    s ++ appendLines t ls = appendLines (s ++ t) ls := by
  induction ls generalizing t with
  | nil => simp [appendLines]
  | cons l ls ih =>
    simp only [appendLines, List.foldl_cons] at ih ⊢
    rw [ih]
    congr 1
    apply String.ext
    simp [String.data_append]

theorem append_appendLines_empty (s : String) (ls : List String) :
    s ++ appendLines "" ls = appendLines s ls := by
  rw [appendLines_left]
  congr 1
  apply String.ext
  simp [String.data_append]

/-- The text of the template of lines 201-218, line by line. -/
theorem moduleTemplate_eq (name rootPath extraDeps extraLocalOverrides : String) :
    "bazel_dep(name = \"rules_proto_grpc\", version = \"0.0.0.rpg.version.placeholder\")\n"
      ++ "bazel_dep(name = \"rules_proto_grpc_example_protos\", version = \"0.0.0.rpg.version.placeholder\")\n"
      ++ "bazel_dep(name = \"rules_proto_grpc_" ++ name
      ++ "\", version = \"0.0.0.rpg.version.placeholder\")" ++ extraDeps ++ "\n"
      ++ "\n"
      ++ "local_path_override(\n"
      ++ "    module_name = \"rules_proto_grpc\",\n"
      ++ "    path = \"" ++ rootPath ++ "modules/core\",\n"
      ++ ")\n"
      ++ "\n"
      ++ "local_path_override(\n"
      ++ "    module_name = \"rules_proto_grpc_example_protos\",\n"
      ++ "    path = \"" ++ rootPath ++ "modules/example_protos\",\n"
      ++ ")\n"
      ++ "\n"
      ++ "local_path_override(\n"
      ++ "    module_name = \"rules_proto_grpc_" ++ name ++ "\",\n"
      ++ "    path = \"" ++ rootPath ++ "modules/" ++ name ++ "\",\n"
      ++ ")" ++ extraLocalOverrides
    = appendLines
        (appendLines
          "bazel_dep(name = \"rules_proto_grpc\", version = \"0.0.0.rpg.version.placeholder\")"
          ["bazel_dep(name = \"rules_proto_grpc_example_protos\", version = \"0.0.0.rpg.version.placeholder\")",
           depLine name] ++ extraDeps)
        (("" :: overrideBlock "rules_proto_grpc" (rootPath ++ "modules/core"))
          ++ ("" :: overrideBlock "rules_proto_grpc_example_protos"
                (rootPath ++ "modules/example_protos"))
          ++ ("" :: overrideBlock ("rules_proto_grpc_" ++ name)
                (rootPath ++ "modules/" ++ name)))
      ++ extraLocalOverrides := by
  apply String.ext
  simp [appendLines, overrideBlock, depLine, String.data_append]

/-- The lines of the example `MODULE.bazel`, for names without line break:
those of the template, those of `ModuleExtraLines`, and a blank line. -/
theorem module_lines (directives : String → String) (lang : Language) (rule : Rule)
    (hl : OneLine lang.Name) (hd : ∀ d ∈ lang.DependsOn, OneLine d) :
    (mustWriteLanguageExampleModuleBazelFile directives lang rule).lines
      = moduleBodyLines lang ++ moduleExtraLines directives lang ++ [""] := by
  have hroot := oneLine_rootPathOf lang
  have hsplit : ∀ o : LineWriter, ∀ E O : String,
      E = appendLines "" (lang.DependsOn.map depLine) →
      O = appendLines "" (lang.DependsOn.flatMap (fun dep =>
        "" :: overrideBlock ("rules_proto_grpc_" ++ dep)
          (rootPathOf lang ++ "modules/" ++ dep))) →
      stringsSplit (appendLines
        (appendLines
          "bazel_dep(name = \"rules_proto_grpc\", version = \"0.0.0.rpg.version.placeholder\")"
          ["bazel_dep(name = \"rules_proto_grpc_example_protos\", version = \"0.0.0.rpg.version.placeholder\")",
           depLine lang.Name] ++ E)
        (("" :: overrideBlock "rules_proto_grpc" (rootPathOf lang ++ "modules/core"))
          ++ ("" :: overrideBlock "rules_proto_grpc_example_protos"
                (rootPathOf lang ++ "modules/example_protos"))
          ++ ("" :: overrideBlock ("rules_proto_grpc_" ++ lang.Name)
                (rootPathOf lang ++ "modules/" ++ lang.Name)))
        ++ O) '\n' = moduleBodyLines lang := by
    intro o E O hE hO
    rw [hE, hO, append_appendLines_empty, append_appendLines_empty, appendLines_append,
      appendLines_append, appendLines_append, stringsSplit_appendLines,
      stringsSplit_of_oneLine _ (by decide)]
    · simp [moduleBodyLines]
    · simp only [List.forall_mem_append, List.forall_mem_cons, List.mem_map,
        List.mem_flatMap, overrideBlock, depLine, oneLine_append]
      simp +decide +contextual [hl, hroot]
      refine ⟨fun d hdm => by simp +decide [oneLine_append, hd d hdm],
        fun l d hdm hl2 => ?_⟩
      rcases hl2 with rfl | rfl | rfl | rfl | rfl <;>
        simp +decide [oneLine_append, hroot, hd d hdm]
  unfold mustWriteLanguageExampleModuleBazelFile
  dsimp only
  rw [foldl_deps_eq, moduleTemplate_eq]
  by_cases hx : lang.ModuleExtraLines.length > 0
  · simp only [if_pos hx, lines_ln, lines_w, lines_empty, List.nil_append, moduleExtraLines]
    rw [hsplit {} _ _ rfl rfl]
    simp
  · simp only [if_neg hx, lines_ln, lines_w, lines_empty, List.nil_append, moduleExtraLines]
    rw [hsplit {} _ _ rfl rfl]
    simp

theorem depLine_ne_override (d : String) : (depLine d == "local_path_override(") = false := by
  rw [beq_eq_false_iff_ne]
  intro h
  have := congrArg String.data h
  simp [depLine, String.data_append] at this

theorem indented_ne_override (a b c : String) (ha : a.data.head? = some ' ') :
    (a ++ b ++ c == "local_path_override(") = false := by
  rw [beq_eq_false_iff_ne]
  intro h
  have hd := congrArg String.data h
  simp only [String.data_append] at hd
  cases hdata : a.data with
  | nil => simp [hdata] at ha
  | cons x xs =>
    rw [hdata] at ha hd
    simp only [List.head?_cons, Option.some.injEq] at ha
    subst ha
    simp at hd

theorem countOverrides_block (m path : String) :
    countOverrides ("" :: overrideBlock m path) = 1 := by
  have h1 := indented_ne_override "    module_name = \"" m "\"," (by decide)
  have h2 := indented_ne_override "    path = \"" path "\"," (by decide)
  have h3 : (("" : String) == "local_path_override(") = false := by decide
  have h4 : ((")" : String) == "local_path_override(") = false := by decide
  simp [countOverrides, overrideBlock, List.count_cons, h1, h2, h3, h4]

theorem countOverrides_append (l1 l2 : List String) :
    countOverrides (l1 ++ l2) = countOverrides l1 + countOverrides l2 := by
  simp [countOverrides, List.count_append]

theorem countOverrides_deps (root : String) (deps : List String) :
    countOverrides (deps.flatMap (fun dep =>
      "" :: overrideBlock ("rules_proto_grpc_" ++ dep) (root ++ "modules/" ++ dep)))
      = deps.length := by
  induction deps with
  | nil => simp [countOverrides]
  | cons d ds ih =>
    rw [List.flatMap_cons, countOverrides_append, countOverrides_block, ih]
    simp [Nat.add_comm]

theorem countOverrides_depLines (deps : List String) :
    countOverrides (deps.map depLine) = 0 := by
  induction deps with
  | nil => simp [countOverrides]
  | cons d ds ih =>
    simp only [countOverrides, List.map_cons, List.count_cons, depLine_ne_override] at ih ⊢
    simp [ih]

theorem countOverrides_moduleBodyLines (lang : Language) :
    countOverrides (moduleBodyLines lang) = 3 + lang.DependsOn.length := by
  unfold moduleBodyLines
  rw [countOverrides_append, countOverrides_append, countOverrides_append,
    countOverrides_append, countOverrides_append, countOverrides_block,
    countOverrides_block, countOverrides_block, countOverrides_deps,
    countOverrides_depLines]
  have h0 : countOverrides
      ["bazel_dep(name = \"rules_proto_grpc\", version = \"0.0.0.rpg.version.placeholder\")",
       "bazel_dep(name = \"rules_proto_grpc_example_protos\", version = \"0.0.0.rpg.version.placeholder\")",
       depLine lang.Name] = 0 := by
    simp only [countOverrides, List.count_cons, depLine_ne_override]
    decide
  rw [h0]

/-- C5, counterexample: for a language with one dependency whose
`ModuleExtraLines` holds a block `local_path_override` of its own, the example
`MODULE.bazel` holds five such blocks, and not `3 + len(L.DependsOn) = 4`. -/
theorem module_override_blocks_not_total :
    (mustWriteLanguageExampleModuleBazelFile id exampleGateway
        { Name := "gateway_grpc_compile" }).lines
      = ["bazel_dep(name = \"rules_proto_grpc\", version = \"0.0.0.rpg.version.placeholder\")",
         "bazel_dep(name = \"rules_proto_grpc_example_protos\", version = \"0.0.0.rpg.version.placeholder\")",
         "bazel_dep(name = \"rules_proto_grpc_grpc_gateway\", version = \"0.0.0.rpg.version.placeholder\")",
         "bazel_dep(name = \"rules_proto_grpc_go\", version = \"0.0.0.rpg.version.placeholder\")",
         "",
         "local_path_override(",
         "    module_name = \"rules_proto_grpc\",",
         "    path = \"../../../modules/core\",",
         ")",
         "",
         "local_path_override(",
         "    module_name = \"rules_proto_grpc_example_protos\",",
         "    path = \"../../../modules/example_protos\",",
         ")",
         "",
         "local_path_override(",
         "    module_name = \"rules_proto_grpc_grpc_gateway\",",
         "    path = \"../../../modules/grpc_gateway\",",
         ")",
         "",
         "local_path_override(",
         "    module_name = \"rules_proto_grpc_go\",",
         "    path = \"../../../modules/go\",",
         ")",
         "",
         "local_path_override(",
         "    module_name = \"gazelle\",",
         "    path = \"../gazelle\",",
         ")",
         ""]
    ∧ countOverrides (mustWriteLanguageExampleModuleBazelFile id exampleGateway
        { Name := "gateway_grpc_compile" }).lines = 5
    ∧ 3 + exampleGateway.DependsOn.length = 4 := by
  decide

/-- C5, amended: for a language `L` (its name and dependency names without
line break) and every rule, the lines of the example `MODULE.bazel` that come
from the template hold exactly `3 + len(L.DependsOn)` blocks
`local_path_override`: the two fixed ones (`rules_proto_grpc` at modules/core,
`rules_proto_grpc_example_protos` at modules/example_protos), the one of
`rules_proto_grpc_{L.Name}` and one per entry of `L.DependsOn`, in order; the
file is these lines followed by `L.ModuleExtraLines`, so it holds
`3 + len(L.DependsOn)` blocks plus those `ModuleExtraLines` brings, and
exactly `3 + len(L.DependsOn)` when `ModuleExtraLines` is empty. -/
theorem module_override_blocks (directives : String → String) (lang : Language)
    (rule : Rule) (hl : OneLine lang.Name) (hd : ∀ d ∈ lang.DependsOn, OneLine d) :
    (mustWriteLanguageExampleModuleBazelFile directives lang rule).lines
      = moduleBodyLines lang ++ moduleExtraLines directives lang ++ [""]
    ∧ countOverrides (moduleBodyLines lang) = 3 + lang.DependsOn.length
    ∧ countOverrides (mustWriteLanguageExampleModuleBazelFile directives lang rule).lines
      = 3 + lang.DependsOn.length + countOverrides (moduleExtraLines directives lang)
    ∧ (lang.ModuleExtraLines = "" →
        countOverrides (mustWriteLanguageExampleModuleBazelFile directives lang rule).lines
          = 3 + lang.DependsOn.length) := by
  have hlines := module_lines directives lang rule hl hd
  have hcount : countOverrides
      (mustWriteLanguageExampleModuleBazelFile directives lang rule).lines
      = 3 + lang.DependsOn.length + countOverrides (moduleExtraLines directives lang) := by
    rw [hlines, countOverrides_append, countOverrides_append,
      countOverrides_moduleBodyLines]
    simp [countOverrides]
  refine ⟨hlines, countOverrides_moduleBodyLines lang, hcount, ?_⟩
  intro hempty
  rw [hcount]
  simp [moduleExtraLines, hempty, countOverrides]

/-- C5, witness: the example `MODULE.bazel` of the language `cpp`, without
dependency nor extra lines, holds three blocks. -/
theorem module_override_blocks_witness :
    (OneLine exampleCpp.Name ∧ ∀ d ∈ exampleCpp.DependsOn, OneLine d)
    ∧ countOverrides (mustWriteLanguageExampleModuleBazelFile id exampleCpp
        { Name := "cpp_proto_compile" }).lines = 3 := by
  have h1 : OneLine exampleCpp.Name := by decide
  have h2 : ∀ d ∈ exampleCpp.DependsOn, OneLine d := by decide
  exact ⟨⟨h1, h2⟩,
    (module_override_blocks id exampleCpp { Name := "cpp_proto_compile" } h1 h2).2.2.2 rfl⟩

theorem length_splitOnChar (sep : Char) (l : List Char) :
    (splitOnChar sep l).length = l.count sep + 1 := by
  induction l with
  | nil => simp [splitOnChar]
  | cons c cs ih =>
    by_cases hc : c = sep
    · subst hc
      simp [splitOnChar, ih]
    · have hne : (c == sep) = false := by simpa using hc
      simp only [splitOnChar, hc, if_false, List.count_cons, hne]
      cases h : splitOnChar sep cs with
      | nil => exact absurd h (splitOnChar_ne_nil sep cs)
      | cons seg segs =>
        rw [h] at ih
        simpa using ih

theorem length_stringsSplit (s : String) (sep : Char) :
    (stringsSplit s sep).length = countChar sep s + 1 := by
  simp [stringsSplit, countChar, length_splitOnChar]

theorem pathLines_append (l1 l2 : List String) :
    pathLines (l1 ++ l2) = pathLines l1 ++ pathLines l2 := by
  simp [pathLines]

theorem pathLines_block (m path : String) :
    pathLines ("" :: overrideBlock m path) = [pathLine path] := by
  simp [pathLines, overrideBlock, pathLine, stringsHasPrefix, String.data_append,
    List.filter_cons, List.isPrefixOf]

theorem pathLines_depLines (deps : List String) : pathLines (deps.map depLine) = [] := by
  induction deps with
  | nil => rfl
  | cons d ds ih =>
    simp only [pathLines, List.map_cons, List.filter_cons] at ih ⊢
    simp [ih, depLine, stringsHasPrefix, String.data_append, List.isPrefixOf]

theorem pathLines_deps (root : String) (deps : List String) :
    pathLines (deps.flatMap (fun dep =>
      "" :: overrideBlock ("rules_proto_grpc_" ++ dep) (root ++ "modules/" ++ dep)))
      = deps.map (fun dep => pathLine (root ++ "modules/" ++ dep)) := by
  induction deps with
  | nil => rfl
  | cons d ds ih =>
    rw [List.flatMap_cons, pathLines_append, pathLines_block, ih]
    rfl

theorem pathLines_moduleBodyLines (lang : Language) :
    pathLines (moduleBodyLines lang)
      = [pathLine (rootPathOf lang ++ "modules/core"),
         pathLine (rootPathOf lang ++ "modules/example_protos"),
         pathLine (rootPathOf lang ++ "modules/" ++ lang.Name)]
        ++ lang.DependsOn.map (fun dep => pathLine (rootPathOf lang ++ "modules/" ++ dep)) := by
  unfold moduleBodyLines
  rw [pathLines_append, pathLines_append, pathLines_append, pathLines_append,
    pathLines_append, pathLines_block, pathLines_block, pathLines_block, pathLines_deps,
    pathLines_depLines]
  have h0 : pathLines
      ["bazel_dep(name = \"rules_proto_grpc\", version = \"0.0.0.rpg.version.placeholder\")",
       "bazel_dep(name = \"rules_proto_grpc_example_protos\", version = \"0.0.0.rpg.version.placeholder\")",
       depLine lang.Name] = [] :=
    pathLines_depLines ["", "example_protos", lang.Name]
  rw [h0]
  rfl

/-- C7, counterexample: for a language with one dependency whose
`ModuleExtraLines` holds a block with a path of its own, the last
`path = "..."` line of the example `MODULE.bazel` is `../gazelle`, which does
not start with the root path `../../../` nor has the form
`{root}modules/{name}`. -/
theorem path_lines_not_all_under_root :
    (OneLine exampleGateway.Name ∧ ∀ d ∈ exampleGateway.DependsOn, OneLine d)
    ∧ rootPathOf exampleGateway = "../../../"
    ∧ pathLines (mustWriteLanguageExampleModuleBazelFile id exampleGateway
        { Name := "gateway_grpc_compile" }).lines
      = ["    path = \"../../../modules/core\",",
         "    path = \"../../../modules/example_protos\",",
         "    path = \"../../../modules/grpc_gateway\",",
         "    path = \"../../../modules/go\",",
         "    path = \"../gazelle\","]
    ∧ (pathLines (mustWriteLanguageExampleModuleBazelFile id exampleGateway
        { Name := "gateway_grpc_compile" }).lines).all
        (fun l => stringsHasPrefix l "    path = \"../../../modules/") = false := by
  decide

/-- C7, amended: for a language `L` (its name and dependency names without
line break), the root path of the example `MODULE.bazel` is `../` repeated
`k + 2` times, where `k` is the number of segments of `L.Name` between `/`,
that is one more than the number of `/` in `L.Name`; a name of one segment
gives `../../../`; the path lines of the blocks the template writes are, in
order, `{root}modules/core`, `{root}modules/example_protos`,
`{root}modules/{L.Name}` and `{root}modules/{dep}` for each dependency; the
path lines of the file are these followed by the path lines
`L.ModuleExtraLines` itself holds, and exactly these when `ModuleExtraLines`
is empty. -/
theorem root_path_depth (directives : String → String) (lang : Language) (rule : Rule)
    (hl : OneLine lang.Name) (hd : ∀ d ∈ lang.DependsOn, OneLine d) :
    (stringsSplit lang.Name '/').length = countChar '/' lang.Name + 1
    ∧ rootPathOf lang = stringsRepeat "../" (countChar '/' lang.Name + 1 + 2)
    ∧ (countChar '/' lang.Name = 0 → rootPathOf lang = "../../../")
    ∧ (mustWriteLanguageExampleModuleBazelFile directives lang rule).lines
      = moduleBodyLines lang ++ moduleExtraLines directives lang ++ [""]
    ∧ pathLines (moduleBodyLines lang)
      = [pathLine (stringsRepeat "../" (countChar '/' lang.Name + 1 + 2) ++ "modules/core"),
         pathLine (stringsRepeat "../" (countChar '/' lang.Name + 1 + 2)
           ++ "modules/example_protos"),
         pathLine (stringsRepeat "../" (countChar '/' lang.Name + 1 + 2)
           ++ "modules/" ++ lang.Name)]
        ++ lang.DependsOn.map (fun dep =>
            pathLine (stringsRepeat "../" (countChar '/' lang.Name + 1 + 2)
              ++ "modules/" ++ dep))
    ∧ pathLines (mustWriteLanguageExampleModuleBazelFile directives lang rule).lines
      = [pathLine (stringsRepeat "../" (countChar '/' lang.Name + 1 + 2) ++ "modules/core"),
         pathLine (stringsRepeat "../" (countChar '/' lang.Name + 1 + 2)
           ++ "modules/example_protos"),
         pathLine (stringsRepeat "../" (countChar '/' lang.Name + 1 + 2)
           ++ "modules/" ++ lang.Name)]
        ++ lang.DependsOn.map (fun dep =>
            pathLine (stringsRepeat "../" (countChar '/' lang.Name + 1 + 2)
              ++ "modules/" ++ dep))
        ++ pathLines (moduleExtraLines directives lang)
    ∧ (lang.ModuleExtraLines = "" →
        pathLines (mustWriteLanguageExampleModuleBazelFile directives lang rule).lines
          = [pathLine (stringsRepeat "../" (countChar '/' lang.Name + 1 + 2)
               ++ "modules/core"),
             pathLine (stringsRepeat "../" (countChar '/' lang.Name + 1 + 2)
               ++ "modules/example_protos"),
             pathLine (stringsRepeat "../" (countChar '/' lang.Name + 1 + 2)
               ++ "modules/" ++ lang.Name)]
            ++ lang.DependsOn.map (fun dep =>
                pathLine (stringsRepeat "../" (countChar '/' lang.Name + 1 + 2)
                  ++ "modules/" ++ dep))) := by
  have hroot : rootPathOf lang = stringsRepeat "../" (countChar '/' lang.Name + 1 + 2) := by
    unfold rootPathOf
    simp only [length_stringsSplit]
  have hlines := module_lines directives lang rule hl hd
  have hbody := pathLines_moduleBodyLines lang
  rw [hroot] at hbody
  have hblank : pathLines [""] = [] := by decide
  have hfile : pathLines (mustWriteLanguageExampleModuleBazelFile directives lang rule).lines
      = pathLines (moduleBodyLines lang) ++ pathLines (moduleExtraLines directives lang) := by
    rw [hlines, pathLines_append, pathLines_append, hblank, List.append_nil]
  refine ⟨length_stringsSplit _ _, hroot, ?_, hlines, hbody, ?_, ?_⟩
  · intro h0
    rw [hroot, h0]
    decide
  · rw [hfile, hbody]
  · intro hempty
    have hextra : moduleExtraLines directives lang = [] := by
      simp [moduleExtraLines, hempty]
    rw [hfile, hbody, hextra]
    simp [pathLines]

/-- C7, witness: for the language `grpc_gateway`, whose name has one segment
and which has one dependency and extra lines, the root path is `../../../`,
the paths of the template are those under it, and the path of the extra
lines comes after them. -/
theorem root_path_depth_witness :
    (OneLine exampleGateway.Name ∧ ∀ d ∈ exampleGateway.DependsOn, OneLine d)
    ∧ rootPathOf exampleGateway = "../../../"
    ∧ pathLines (moduleBodyLines exampleGateway)
      = ["    path = \"../../../modules/core\",",
         "    path = \"../../../modules/example_protos\",",
         "    path = \"../../../modules/grpc_gateway\",",
         "    path = \"../../../modules/go\","]
    ∧ pathLines (mustWriteLanguageExampleModuleBazelFile id exampleGateway
        { Name := "gateway_grpc_compile" }).lines
      = ["    path = \"../../../modules/core\",",
         "    path = \"../../../modules/example_protos\",",
         "    path = \"../../../modules/grpc_gateway\",",
         "    path = \"../../../modules/go\",",
         "    path = \"../gazelle\","] := by
  have h1 : OneLine exampleGateway.Name := by decide
  have h2 : ∀ d ∈ exampleGateway.DependsOn, OneLine d := by decide
  have h := root_path_depth id exampleGateway { Name := "gateway_grpc_compile" } h1 h2
  refine ⟨⟨h1, h2⟩, h.2.2.1 (by decide), ?_, ?_⟩
  · rw [h.2.2.2.2.1]
    decide
  · rw [h.2.2.2.2.2.1]
    decide

/-! ### `examples/Makefile.mk` -/

theorem oneLine_stringsJoin (l : List String) (sep : String) (hsep : OneLine sep)
    (h : ∀ x ∈ l, OneLine x) : OneLine (stringsJoin l sep) := by
  induction l with
  | nil => simp +decide [stringsJoin]
  | cons a as ih =>
    cases as with
    | nil => simpa [stringsJoin] using h a (List.mem_cons_self _ _)
    | cons b bs =>
      simp only [stringsJoin, oneLine_append]
      exact ⟨⟨h a (List.mem_cons_self _ _), hsep⟩,
        ih (fun x hx => h x (List.mem_cons_of_mem _ hx))⟩

theorem oneLine_exampleTarget (lang : Language) (rule : Rule)
    (hl : OneLine lang.Name) (hr : OneLine rule.Name) :
    OneLine (exampleTarget lang rule) := by
  unfold exampleTarget
  simp +decide [oneLine_append, hl, hr]

theorem oneLine_bazelCommand (lang : Language) (rule : Rule) :
    OneLine (bazelCommand lang rule) := by
  have hrep := oneLine_stringsRepeat "../" (by decide) (countChar '/' lang.Name)
  unfold bazelCommand
  dsimp only
  split <;> simp +decide [oneLine_append, hrep]

theorem writeExampleRule_eq (pathJoin : List String → String) (dir : String)
    (lang : Language) (st : MakefileState) (rule : Rule)
    (hl : OneLine lang.Name) (hr : OneLine rule.Name) :
    writeExampleRule pathJoin dir lang st rule
      = { out := ⟨st.out.lines ++ exampleTargetBlock pathJoin dir lang rule⟩,
          allNames := st.allNames ++ [exampleTarget lang rule],
          langNames := st.langNames ++ [exampleTarget lang rule] } := by
  have ht := oneLine_exampleTarget lang rule hl hr
  have h1 : stringsSplit (".PHONY: " ++ exampleTarget lang rule) '\n'
      = [".PHONY: " ++ exampleTarget lang rule] :=
    stringsSplit_of_oneLine _ (by simp +decide [oneLine_append, ht])
  have h2 : stringsSplit (exampleTarget lang rule ++ ":") '\n'
      = [exampleTarget lang rule ++ ":"] :=
    stringsSplit_of_oneLine _ (by simp +decide [oneLine_append, ht])
  have h3 := stringsSplit_of_oneLine _ (oneLine_bazelCommand lang rule)
  simp only [writeExampleRule, LineWriter.w, LineWriter.ln, exampleTargetBlock, h1, h2, h3,
    List.append_assoc, List.cons_append, List.nil_append]

theorem foldl_writeExampleRule (pathJoin : List String → String) (dir : String)
    (lang : Language) (rules : List Rule) (st : MakefileState)
    (hl : OneLine lang.Name) (hr : ∀ r ∈ rules, OneLine r.Name) :
    rules.foldl (writeExampleRule pathJoin dir lang) st
      = { out := ⟨st.out.lines ++ rules.flatMap (exampleTargetBlock pathJoin dir lang)⟩,
          allNames := st.allNames ++ rules.map (exampleTarget lang),
          langNames := st.langNames ++ rules.map (exampleTarget lang) } := by
  induction rules generalizing st with
  | nil => simp
  | cons r rs ih =>
    rw [List.foldl_cons, writeExampleRule_eq pathJoin dir lang st r hl
      (hr r (List.mem_cons_self _ _)), ih _ (fun x hx => hr x (List.mem_cons_of_mem _ hx))]
    simp [List.flatMap_cons]

theorem writeExampleLanguage_eq (pathJoin : List String → String) (dir : String)
    (st : MakefileState) (lang : Language)
    (hl : OneLine lang.Name) (hr : ∀ r ∈ lang.Rules, OneLine r.Name) :
    (writeExampleLanguage pathJoin dir st lang).out.lines
      = st.out.lines ++ (lang.Rules.flatMap (exampleTargetBlock pathJoin dir lang)
          ++ languageTargetBlock lang)
    ∧ (writeExampleLanguage pathJoin dir st lang).allNames
      = st.allNames ++ exampleTargets lang := by
  have hjoin : OneLine (stringsJoin (exampleTargets lang) " ") :=
    oneLine_stringsJoin _ _ (by decide) (fun x hx => by
      obtain ⟨r, hrm, rfl⟩ := List.mem_map.1 hx
      exact oneLine_exampleTarget lang r hl (hr r hrm))
  have h1 : stringsSplit (".PHONY: " ++ (lang.Name ++ "_examples")) '\n'
      = [".PHONY: " ++ (lang.Name ++ "_examples")] :=
    stringsSplit_of_oneLine _ (by simp +decide [oneLine_append, hl])
  have h2 : stringsSplit (lang.Name ++ "_examples" ++ ": "
      ++ stringsJoin (exampleTargets lang) " ") '\n'
      = [lang.Name ++ "_examples" ++ ": " ++ stringsJoin (exampleTargets lang) " "] :=
    stringsSplit_of_oneLine _ (by simp +decide [oneLine_append, hl, hjoin])
  have h3 : ".PHONY: " ++ (lang.Name ++ "_examples") = ".PHONY: " ++ lang.Name ++ "_examples" := by
    apply String.ext
    simp [String.data_append]
  have h4 : lang.Name ++ "_examples" ++ ": " ++ stringsJoin (exampleTargets lang) " "
      = lang.Name ++ "_examples: " ++ stringsJoin (exampleTargets lang) " " := by
    apply String.ext
    simp [String.data_append]
  unfold writeExampleLanguage
  dsimp only
  rw [foldl_writeExampleRule pathJoin dir lang lang.Rules _ hl hr]
  simp only [lines_ln, lines_w, List.nil_append]
  change _ ++ stringsSplit (".PHONY: " ++ (lang.Name ++ "_examples")) '\n'
    ++ stringsSplit (lang.Name ++ "_examples" ++ ": "
      ++ stringsJoin (exampleTargets lang) " ") '\n' ++ [""] = _ ∧ _
  rw [h1, h2, h3, h4]
  simp [languageTargetBlock, exampleTargets]

theorem foldl_writeExampleLanguage (pathJoin : List String → String) (dir : String)
    (languages : List Language) (st : MakefileState)
    (hnames : ∀ l ∈ languages, OneLine l.Name ∧ ∀ r ∈ l.Rules, OneLine r.Name) :
    (languages.foldl (writeExampleLanguage pathJoin dir) st).out.lines
      = st.out.lines ++ languages.flatMap (fun lang =>
          lang.Rules.flatMap (exampleTargetBlock pathJoin dir lang)
            ++ languageTargetBlock lang)
    ∧ (languages.foldl (writeExampleLanguage pathJoin dir) st).allNames
      = st.allNames ++ languages.flatMap exampleTargets := by
  induction languages generalizing st with
  | nil => simp
  | cons l ls ih =>
    have hl := hnames l (List.mem_cons_self _ _)
    have h1 := writeExampleLanguage_eq pathJoin dir st l hl.1 hl.2
    have h2 := ih (writeExampleLanguage pathJoin dir st l)
      (fun x hx => hnames x (List.mem_cons_of_mem _ hx))
    rw [List.foldl_cons, h2.1, h2.2, h1.1, h1.2]
    simp [List.flatMap_cons]

/-- C9: in `mustWriteExamplesMakefile`, for languages whose names and rule
names hold no line break, the file is, for each language in list order, one
block per rule in declared order (the `.PHONY` declaration of the target
`{L.Name}_{R.Name}_example`, the target, the `cd` command, the bazel command
and a blank line) followed by the aggregate target `{L.Name}_examples`, whose
prerequisites are the rule targets of the language in declared order; then
the target `all_examples`, whose prerequisites are the rule targets of all
languages, in list order; the bazel command is `bazel --batch test ...` when
`R.IsTest` is true and `bazel --batch build ...` otherwise. -/
theorem examples_makefile_targets (pathJoin : List String → String) (dir : String)
    (languages : List Language)
    (hnames : ∀ l ∈ languages, OneLine l.Name ∧ ∀ r ∈ l.Rules, OneLine r.Name) :
    (mustWriteExamplesMakefile pathJoin dir languages).lines
      = languages.flatMap (fun L =>
          L.Rules.flatMap (fun R =>
            [".PHONY: " ++ exampleTarget L R, exampleTarget L R ++ ":"]
            ++ stringsSplit
                ("\tcd " ++ pathJoin [dir, "examples", L.Name, R.Name] ++ "; \\") '\n'
            ++ [bazelCommand L R, ""])
          ++ [".PHONY: " ++ L.Name ++ "_examples",
              L.Name ++ "_examples: " ++ stringsJoin (L.Rules.map (exampleTarget L)) " ",
              ""])
        ++ [".PHONY: all_examples",
            "all_examples: "
              ++ stringsJoin (languages.flatMap (fun L => L.Rules.map (exampleTarget L))) " ",
            ""]
    ∧ ∀ L R, exampleTarget L R = L.Name ++ "_" ++ R.Name ++ "_example"
        ∧ (R.IsTest = true → bazelCommand L R
            = "\tbazel --batch test --enable_bzlmod ${BAZEL_EXTRA_FLAGS} --verbose_failures --test_output=errors --disk_cache="
              ++ stringsRepeat "../" (countChar '/' L.Name) ++ "../../bazel-disk-cache //...")
        ∧ (R.IsTest = false → bazelCommand L R
            = "\tbazel --batch build --enable_bzlmod ${BAZEL_EXTRA_FLAGS} --verbose_failures --disk_cache="
              ++ stringsRepeat "../" (countChar '/' L.Name) ++ "../../bazel-disk-cache //...") := by
  refine ⟨?_, fun L R => ⟨rfl, fun h => by simp [bazelCommand, h],
    fun h => by simp [bazelCommand, h]⟩⟩
  have hfold := foldl_writeExampleLanguage pathJoin dir languages {} hnames
  simp only [lines_empty, List.nil_append] at hfold
  have hall : OneLine (stringsJoin (languages.flatMap exampleTargets) " ") :=
    oneLine_stringsJoin _ _ (by decide) (fun x hx => by
      obtain ⟨l, hlm, hx2⟩ := List.mem_flatMap.1 hx
      obtain ⟨r, hrm, rfl⟩ := List.mem_map.1 hx2
      exact oneLine_exampleTarget l r (hnames l hlm).1 ((hnames l hlm).2 r hrm))
  have h1 : stringsSplit ".PHONY: all_examples" '\n' = [".PHONY: all_examples"] := by decide
  have h2 : stringsSplit ("all_examples: " ++ stringsJoin (languages.flatMap exampleTargets) " ")
      '\n' = ["all_examples: " ++ stringsJoin (languages.flatMap exampleTargets) " "] :=
    stringsSplit_of_oneLine _ (by simp +decide [oneLine_append, hall])
  unfold mustWriteExamplesMakefile
  dsimp only
  rw [lines_ln, lines_w, lines_w, hfold.1, hfold.2, h1, h2]
  simp only [List.append_assoc, List.cons_append, List.nil_append]
  rfl

/-- C9, witness: the Makefile of the languages go and python. -/
theorem examples_makefile_targets_witness :
    (∀ l ∈ [exampleGo, examplePython], OneLine l.Name ∧ ∀ r ∈ l.Rules, OneLine r.Name)
    ∧ (mustWriteExamplesMakefile joinWithSlash "." [exampleGo, examplePython]).lines
      = [".PHONY: go_go_proto_library_example",
         "go_go_proto_library_example:",
         "\tcd ./examples/go/go_proto_library; \\",
         "\tbazel --batch build --enable_bzlmod ${BAZEL_EXTRA_FLAGS} --verbose_failures --disk_cache=../../bazel-disk-cache //...",
         "",
         ".PHONY: go_go_proto_compile_example",
         "go_go_proto_compile_example:",
         "\tcd ./examples/go/go_proto_compile; \\",
         "\tbazel --batch test --enable_bzlmod ${BAZEL_EXTRA_FLAGS} --verbose_failures --test_output=errors --disk_cache=../../bazel-disk-cache //...",
         "",
         ".PHONY: go_examples",
         "go_examples: go_go_proto_library_example go_go_proto_compile_example",
         "",
         ".PHONY: python_python_proto_compile_example",
         "python_python_proto_compile_example:",
         "\tcd ./examples/python/python_proto_compile; \\",
         "\tbazel --batch build --enable_bzlmod ${BAZEL_EXTRA_FLAGS} --verbose_failures --disk_cache=../../bazel-disk-cache //...",
         "",
         ".PHONY: python_examples",
         "python_examples: python_python_proto_compile_example",
         "",
         ".PHONY: all_examples",
         "all_examples: go_go_proto_library_example go_go_proto_compile_example python_python_proto_compile_example",
         ""] := by
  have hnames : ∀ l ∈ [exampleGo, examplePython],
      OneLine l.Name ∧ ∀ r ∈ l.Rules, OneLine r.Name := by decide
  refine ⟨hnames, ?_⟩
  rw [(examples_makefile_targets joinWithSlash "." [exampleGo, examplePython] hnames).1]
  decide

/-! ### `action` and `main` -/

theorem foldl_languageCalls (dir : String) (languages : List Language) (init : List Call) :
    languages.foldl (fun calls lang =>
        calls ++ [Call.mustWriteLanguageReadme dir lang, Call.mustWriteLanguageDefs dir lang,
          Call.mustWriteLanguageRules dir lang, Call.mustWriteLanguageExamples dir lang]) init
      = init ++ languages.flatMap (languageCalls dir) := by
  induction languages generalizing init with
  | nil => simp
  | cons l ls ih =>
    rw [List.foldl_cons, ih]
    simp [List.flatMap_cons, languageCalls]

theorem filter_languageCalls (dir : String) (languages : List Language)
    (p : Call → Bool) (hp : ∀ lang, ∀ c ∈ languageCalls dir lang, p c = false) :
    (languages.flatMap (languageCalls dir)).filter p = [] := by
  rw [List.filter_eq_nil_iff]
  intro c hc
  obtain ⟨l, _, hcl⟩ := List.mem_flatMap.1 hc
  simp [hp l c hcl]

/-- The calls `action` makes once the check of `--dir` has passed: the
checksum derivation when `--ref` is given and `--sha256` is not, then the
emitters. -/
theorem action_calls (mustGetSha256 : String → String) (languages : List Language)
    (c : Flags) (hdir : c.dir ≠ "") :
    action mustGetSha256 languages c
      = { err := none,
          calls :=
            (if c.ref ≠ "{GIT_COMMIT_ID}" ∧ c.sha256 = "{ARCHIVE_TAR_GZ_SHA256}" then
              [Call.mustGetSha256 (stringsReplaceAll c.github_url "{ref}" c.ref)]
            else [])
            ++ languages.flatMap (languageCalls c.dir)
            ++ [Call.mustWriteModuleBazel c.dir c.module_template languages,
                Call.mustWriteBazelignore c.dir languages,
                Call.mustWriteReadme c.dir c.readme_header_template c.readme_footer_template
                  c.ref
                  (if c.ref ≠ "{GIT_COMMIT_ID}" ∧ c.sha256 = "{ARCHIVE_TAR_GZ_SHA256}" then
                    mustGetSha256 (stringsReplaceAll c.github_url "{ref}" c.ref)
                  else c.sha256)
                  languages,
                Call.mustWriteIndexRst c.dir c.index_template c.ref
                  (if c.ref ≠ "{GIT_COMMIT_ID}" ∧ c.sha256 = "{ARCHIVE_TAR_GZ_SHA256}" then
                    mustGetSha256 (stringsReplaceAll c.github_url "{ref}" c.ref)
                  else c.sha256),
                Call.mustWriteBazelCIPresubmitYml c.dir languages c.available_tests,
                Call.mustWriteExamplesMakefile c.dir languages,
                Call.mustWriteTestWorkspacesMakefile c.dir] } := by
  unfold action
  simp only [if_neg hdir, foldl_languageCalls]
  by_cases h : c.ref ≠ "{GIT_COMMIT_ID}" ∧ c.sha256 = "{ARCHIVE_TAR_GZ_SHA256}"
  · simp [if_pos h]
  · simp [if_neg h]

theorem replaceAllAux_skip (old new : List Char) (xs rest : List Char) :
    replaceAllAux old new xs.length (xs ++ rest) = replaceAllAux old new 0 rest := by
  induction xs with
  | nil => cases rest <;> simp [replaceAllAux]
  | cons x xs ih => simpa [replaceAllAux] using ih

/-- Where the text starts with `old`, `strings.ReplaceAll` puts `new` and
goes on after the occurrence. -/
theorem replaceAllAux_match (o : Char) (old new rest : List Char) :
    replaceAllAux (o :: old) new 0 ((o :: old) ++ rest)
      = new ++ replaceAllAux (o :: old) new 0 rest := by
  have hp : (o :: old).isPrefixOf (o :: (old ++ rest)) = true := by
    have : (o :: old) <+: (o :: (old ++ rest)) := ⟨rest, by simp⟩
    simp [List.isPrefixOf_iff_prefix, this]
  have hs := replaceAllAux_skip (o :: old) new old rest
  show replaceAllAux (o :: old) new 0 (o :: (old ++ rest)) = _
  rw [replaceAllAux, if_pos hp]
  simp only [List.length_cons, Nat.add_sub_cancel]
  rw [hs]

/-- Where the text does not start with `old`, `strings.ReplaceAll` keeps the
first character and goes on. -/
theorem replaceAllAux_keep (old new : List Char) (x : Char) (rest : List Char)
    (h : old.isPrefixOf (x :: rest) = false) :
    replaceAllAux old new 0 (x :: rest) = x :: replaceAllAux old new 0 rest := by
  simp [replaceAllAux, h]

/-- C6, counterexample: with `--ref v1.0.0`, `--sha256` left at its
placeholder and an empty `--dir`, `action` makes no call at all: the checksum
derivation is not invoked. -/
theorem derivation_skipped_without_dir :
    flagsNoDir.ref ≠ "{GIT_COMMIT_ID}"
    ∧ flagsNoDir.sha256 = "{ARCHIVE_TAR_GZ_SHA256}"
    ∧ (action exampleSha256 [exampleGo] flagsNoDir).calls = []
    ∧ ((action exampleSha256 [exampleGo] flagsNoDir).calls.filter Call.isDerivation).length
      ≠ 1 := by
  decide

/-- C6, amended: when `--dir` is not empty, `action` invokes `mustGetSha256`
exactly once, on `githubURL` with every `{ref}` replaced by the ref, when ref
is not the placeholder `{GIT_COMMIT_ID}` and sha256 is the placeholder
`{ARCHIVE_TAR_GZ_SHA256}`, and its result is the Sha256 value passed to the
README renderer and to the index-page renderer; when sha256 is not the
placeholder no derivation occurs and the value supplied is passed unchanged
to both.  `strings.ReplaceAll` replaces an occurrence of `{ref}` wherever the
text starts with one and keeps the character otherwise. -/
theorem checksum_derivation_once (mustGetSha256 : String → String)
    (languages : List Language) (c : Flags) (hdir : c.dir ≠ "") :
    (c.ref ≠ "{GIT_COMMIT_ID}" → c.sha256 = "{ARCHIVE_TAR_GZ_SHA256}" →
      (action mustGetSha256 languages c).calls.filter Call.isDerivation
        = [Call.mustGetSha256 (stringsReplaceAll c.github_url "{ref}" c.ref)]
      ∧ (action mustGetSha256 languages c).calls.filter Call.isReadme
        = [Call.mustWriteReadme c.dir c.readme_header_template c.readme_footer_template c.ref
            (mustGetSha256 (stringsReplaceAll c.github_url "{ref}" c.ref)) languages]
      ∧ (action mustGetSha256 languages c).calls.filter Call.isIndexRst
        = [Call.mustWriteIndexRst c.dir c.index_template c.ref
            (mustGetSha256 (stringsReplaceAll c.github_url "{ref}" c.ref))])
    ∧ (c.sha256 ≠ "{ARCHIVE_TAR_GZ_SHA256}" →
      (action mustGetSha256 languages c).calls.filter Call.isDerivation = []
      ∧ (action mustGetSha256 languages c).calls.filter Call.isReadme
        = [Call.mustWriteReadme c.dir c.readme_header_template c.readme_footer_template c.ref
            c.sha256 languages]
      ∧ (action mustGetSha256 languages c).calls.filter Call.isIndexRst
        = [Call.mustWriteIndexRst c.dir c.index_template c.ref c.sha256])
    ∧ (∀ new rest : List Char,
        replaceAllAux "{ref}".data new 0 ("{ref}".data ++ rest)
          = new ++ replaceAllAux "{ref}".data new 0 rest)
    ∧ (∀ (new : List Char) (x : Char) (rest : List Char),
        "{ref}".data.isPrefixOf (x :: rest) = false →
        replaceAllAux "{ref}".data new 0 (x :: rest)
          = x :: replaceAllAux "{ref}".data new 0 rest) := by
  have hcalls := action_calls mustGetSha256 languages c hdir
  have hd := filter_languageCalls c.dir languages Call.isDerivation
    (fun lang x hx => by
      simp only [languageCalls, List.mem_cons, List.mem_singleton, List.not_mem_nil,
        or_false] at hx
      rcases hx with rfl | rfl | rfl | rfl <;> rfl)
  have hr := filter_languageCalls c.dir languages Call.isReadme
    (fun lang x hx => by
      simp only [languageCalls, List.mem_cons, List.mem_singleton, List.not_mem_nil,
        or_false] at hx
      rcases hx with rfl | rfl | rfl | rfl <;> rfl)
  have hi := filter_languageCalls c.dir languages Call.isIndexRst
    (fun lang x hx => by
      simp only [languageCalls, List.mem_cons, List.mem_singleton, List.not_mem_nil,
        or_false] at hx
      rcases hx with rfl | rfl | rfl | rfl <;> rfl)
  refine ⟨?_, ?_, ?_, ?_⟩
  · intro href hsha
    rw [hcalls]
    simp only [if_pos (And.intro href hsha)]
    simp [List.filter_append, hd, hr, hi, List.filter_cons, Call.isDerivation, Call.isReadme,
      Call.isIndexRst]
  · intro hsha
    rw [hcalls]
    have hn : ¬ (c.ref ≠ "{GIT_COMMIT_ID}" ∧ c.sha256 = "{ARCHIVE_TAR_GZ_SHA256}") :=
      fun h => hsha h.2
    simp only [if_neg hn]
    simp [List.filter_append, hd, hr, hi, List.filter_cons, Call.isDerivation, Call.isReadme,
      Call.isIndexRst]
  · intro new rest
    exact replaceAllAux_match '{' _ new rest
  · intro new x rest h
    exact replaceAllAux_keep _ new x rest h

/-- C6, witness: with `--ref v1.0.0` and the other flags at their defaults,
the checksum is derived once, from the URL of the release `v1.0.0`. -/
theorem checksum_derivation_once_witness :
    flagsRef.dir ≠ ""
    ∧ (action exampleSha256 [exampleGo] flagsRef).calls.filter Call.isDerivation
      = [Call.mustGetSha256
          "https://github.com/rules-proto-grpc/rules_proto_grpc/releases/download/v1.0.0/rules_proto_grpc-v1.0.0.tar.gz"] := by
  have hdir : flagsRef.dir ≠ "" := by decide
  refine ⟨hdir, ?_⟩
  rw [((checksum_derivation_once exampleSha256 [exampleGo] flagsRef hdir).1
    (by decide) (by decide)).1]
  decide

/-- C10: when `--dir` is the empty string, `action` returns the error
`--dir required` and has made no call, neither the checksum derivation nor an
emitter, and the action of the app returns an exit error with exit code 1;
for every non-empty `--dir` the check does not fail: `action` goes on to its
calls and returns no error. -/
theorem dir_required (mustGetSha256 : String → String) (languages : List Language)
    (c : Flags) :
    (c.dir = "" →
      (action mustGetSha256 languages c).err = some "--dir required"
      ∧ (action mustGetSha256 languages c).calls = []
      ∧ ∃ e : ExitError, appAction mustGetSha256 languages c = (some e, [])
          ∧ e.exitCode = 1)
    ∧ (c.dir ≠ "" →
      (action mustGetSha256 languages c).err = none
      ∧ (appAction mustGetSha256 languages c).1 = none
      ∧ Call.mustWriteTestWorkspacesMakefile c.dir
          ∈ (action mustGetSha256 languages c).calls) := by
  constructor
  · intro h
    have ha : action mustGetSha256 languages c
        = { err := some "--dir required", calls := [] } := by
      unfold action
      simp [h]
    refine ⟨by rw [ha], by rw [ha], ⟨{ message := "%v", exitCode := 1 }, ?_, rfl⟩⟩
    unfold appAction
    rw [ha]
  · intro h
    have ha := action_calls mustGetSha256 languages c h
    refine ⟨by rw [ha], ?_, ?_⟩
    · unfold appAction
      rw [ha]
    · rw [ha]
      simp

/-- C10, witness: with an empty `--dir` the action fails with `--dir required`
and no call is made; with the default `--dir` it does not fail. -/
theorem dir_required_witness :
    (flagsNoDir.dir = "" ∧ flagsRef.dir ≠ "")
    ∧ (action exampleSha256 [exampleGo] flagsNoDir).err = some "--dir required"
    ∧ (action exampleSha256 [exampleGo] flagsNoDir).calls = []
    ∧ (action exampleSha256 [exampleGo] flagsRef).err = none := by
  have h1 : flagsNoDir.dir = "" := by decide
  have h2 : flagsRef.dir ≠ "" := by decide
  exact ⟨⟨h1, h2⟩, ((dir_required exampleSha256 [exampleGo] flagsNoDir).1 h1).1,
    ((dir_required exampleSha256 [exampleGo] flagsNoDir).1 h1).2.1,
    ((dir_required exampleSha256 [exampleGo] flagsRef).2 h2).1⟩

/-! ### The CI configuration and the Makefiles -/

theorem findTestWorkspaceNames_eq (files : List FileInfo) :
    findTestWorkspaceNames files = (files.filter isTestWorkspace).map (fun f => f.Name) := by
  have h : ∀ init : List String,
      files.foldl (fun testWorkspaces file =>
        if (file.IsDir && !stringsHasPrefix file.Name "."
            && !stringsHasPrefix file.Name "bazel-") = true
        then testWorkspaces ++ [file.Name] else testWorkspaces) init
        = init ++ (files.filter isTestWorkspace).map (fun f => f.Name) := by
    induction files with
    | nil => intro init; simp
    | cons f fs ih =>
      intro init
      rw [List.foldl_cons, ih]
      by_cases hf : isTestWorkspace f = true
      · have hf2 := hf
        unfold isTestWorkspace at hf2
        simp [hf, hf2]
      · have hf2 := hf
        unfold isTestWorkspace at hf2
        simp [hf, hf2]
  unfold findTestWorkspaceNames
  rw [h []]
  simp

theorem make_example_eq (lang : Language) (rule : Rule) :
    "     - make " ++ lang.Name ++ "_" ++ rule.Name ++ "_example"
      = "     - make " ++ exampleTarget lang rule := by
  apply String.ext
  simp [exampleTarget, String.data_append]

theorem make_testWorkspace_eq (testWorkspace : String) :
    "     - make test_workspace_" ++ testWorkspace
      = "     - make " ++ testWorkspaceTarget testWorkspace := by
  apply String.ext
  simp [testWorkspaceTarget, String.data_append]

theorem oneLine_testWorkspaceTarget (testWorkspace : String) (h : OneLine testWorkspace) :
    OneLine (testWorkspaceTarget testWorkspace) := by
  unfold testWorkspaceTarget
  simp +decide [oneLine_append, h]

/-- The task of the test workspaces on a CI platform: its header, one make
command per test workspace, a blank line. -/
theorem testWorkspacesTaskLines_eq (files : List FileInfo) (ciPlatform : String)
    (hP : ciPlatform ∈ ciPlatforms)
    (hW : ∀ W ∈ findTestWorkspaceNames files, OneLine W) :
    testWorkspacesTaskLines files ciPlatform
      = testWorkspacesTaskHeader ciPlatform
        ++ (findTestWorkspaceNames files).map
            (fun W => "     - make " ++ testWorkspaceTarget W)
        ++ [""] := by
  have hloop : ∀ o : LineWriter,
      ((findTestWorkspaceNames files).foldl (fun out testWorkspace =>
        out.w ("     - make test_workspace_" ++ testWorkspace)) o).lines
        = o.lines ++ (findTestWorkspaceNames files).map
            (fun W => "     - make " ++ testWorkspaceTarget W) := by
    intro o
    rw [foldl_w_lines (fun W => "     - make test_workspace_" ++ W)]
    · simp only [make_testWorkspace_eq]
    · intro W hWm
      simp +decide [oneLine_append, hW W hWm]
  unfold testWorkspacesTaskLines writeTestWorkspacesTask
  simp only [ciPlatforms, List.mem_cons, List.mem_singleton, List.not_mem_nil, or_false] at hP
  rcases hP with rfl | rfl
  · simp only [if_neg (show ¬ ("ubuntu2204" : String) = "windows" by decide), lines_ln, hloop]
    simp +decide [testWorkspacesTaskHeader, stringsSplit_of_oneLine]
  · simp only [if_neg (show ¬ ("macos" : String) = "windows" by decide), lines_ln, hloop]
    simp +decide [testWorkspacesTaskHeader, stringsSplit_of_oneLine]

/-- The lines of `examples/Makefile.mk`, for names without line break: the
blocks of the rules and the aggregate target of each language, then the
target `all_examples`. -/
theorem examplesMakefile_lines (pathJoin : List String → String) (dir : String)
    (languages : List Language)
    (hnames : ∀ l ∈ languages, OneLine l.Name ∧ ∀ r ∈ l.Rules, OneLine r.Name) :
    (mustWriteExamplesMakefile pathJoin dir languages).lines
      = languages.flatMap (fun lang =>
          lang.Rules.flatMap (exampleTargetBlock pathJoin dir lang)
            ++ languageTargetBlock lang)
        ++ [".PHONY: all_examples",
            "all_examples: " ++ stringsJoin (languages.flatMap exampleTargets) " ",
            ""] := by
  have hfold := foldl_writeExampleLanguage pathJoin dir languages {} hnames
  simp only [lines_empty, List.nil_append] at hfold
  have hall : OneLine (stringsJoin (languages.flatMap exampleTargets) " ") :=
    oneLine_stringsJoin _ _ (by decide) (fun x hx => by
      obtain ⟨l, hlm, hx2⟩ := List.mem_flatMap.1 hx
      obtain ⟨r, hrm, rfl⟩ := List.mem_map.1 hx2
      exact oneLine_exampleTarget l r (hnames l hlm).1 ((hnames l hlm).2 r hrm))
  have h1 : stringsSplit ".PHONY: all_examples" '\n' = [".PHONY: all_examples"] := by decide
  have h2 : stringsSplit ("all_examples: " ++ stringsJoin (languages.flatMap exampleTargets) " ")
      '\n' = ["all_examples: " ++ stringsJoin (languages.flatMap exampleTargets) " "] :=
    stringsSplit_of_oneLine _ (by simp +decide [oneLine_append, hall])
  unfold mustWriteExamplesMakefile
  dsimp only
  rw [lines_ln, lines_w, lines_w, hfold.1, hfold.2, h1, h2]
  simp only [List.append_assoc, List.cons_append, List.nil_append]

theorem declaresTarget_example (pathJoin : List String → String) (dir : String)
    (languages : List Language)
    (hnames : ∀ l ∈ languages, OneLine l.Name ∧ ∀ r ∈ l.Rules, OneLine r.Name)
    (lang : Language) (hl : lang ∈ languages) (rule : Rule) (hr : rule ∈ lang.Rules) :
    DeclaresTarget (mustWriteExamplesMakefile pathJoin dir languages).lines
      (exampleTarget lang rule) := by
  have hblock : ∀ x ∈ exampleTargetBlock pathJoin dir lang rule,
      x ∈ (mustWriteExamplesMakefile pathJoin dir languages).lines := by
    intro x hx
    rw [examplesMakefile_lines pathJoin dir languages hnames]
    apply List.mem_append_left
    exact List.mem_flatMap.2 ⟨lang, hl, List.mem_append_left _
      (List.mem_flatMap.2 ⟨rule, hr, hx⟩)⟩
  constructor
  · exact hblock _ (by simp [exampleTargetBlock])
  · exact hblock _ (by simp [exampleTargetBlock])

theorem writeTestWorkspaceRule_eq (pathJoin : List String → String) (dir : String)
    (st : WorkspacesState) (testWorkspace : String) (h : OneLine testWorkspace) :
    writeTestWorkspaceRule pathJoin dir st testWorkspace
      = { out := ⟨st.out.lines ++ testWorkspaceTargetBlock pathJoin dir testWorkspace⟩,
          allNames := st.allNames ++ [testWorkspaceTarget testWorkspace] } := by
  have ht := oneLine_testWorkspaceTarget testWorkspace h
  have h1 : stringsSplit (".PHONY: " ++ testWorkspaceTarget testWorkspace) '\n'
      = [".PHONY: " ++ testWorkspaceTarget testWorkspace] :=
    stringsSplit_of_oneLine _ (by simp +decide [oneLine_append, ht])
  have h2 : stringsSplit (testWorkspaceTarget testWorkspace ++ ":") '\n'
      = [testWorkspaceTarget testWorkspace ++ ":"] :=
    stringsSplit_of_oneLine _ (by simp +decide [oneLine_append, ht])
  have h3 : stringsSplit
      "\tbazel --batch test --enable_bzlmod ${BAZEL_EXTRA_FLAGS} --verbose_failures --disk_cache=../bazel-disk-cache --test_output=errors //..."
      '\n'
      = ["\tbazel --batch test --enable_bzlmod ${BAZEL_EXTRA_FLAGS} --verbose_failures --disk_cache=../bazel-disk-cache --test_output=errors //..."] :=
    stringsSplit_of_oneLine _ (by decide)
  simp only [writeTestWorkspaceRule, LineWriter.w, LineWriter.ln, testWorkspaceTargetBlock,
    h1, h2, h3, List.append_assoc, List.cons_append, List.nil_append]

theorem foldl_writeTestWorkspaceRule (pathJoin : List String → String) (dir : String)
    (names : List String) (st : WorkspacesState) (h : ∀ W ∈ names, OneLine W) :
    names.foldl (writeTestWorkspaceRule pathJoin dir) st
      = { out := ⟨st.out.lines ++ names.flatMap (testWorkspaceTargetBlock pathJoin dir)⟩,
          allNames := st.allNames ++ names.map testWorkspaceTarget } := by
  induction names generalizing st with
  | nil => simp
  | cons W Ws ih =>
    rw [List.foldl_cons, writeTestWorkspaceRule_eq pathJoin dir st W
      (h W (List.mem_cons_self _ _)), ih _ (fun x hx => h x (List.mem_cons_of_mem _ hx))]
    simp [List.flatMap_cons]

/-- The lines of `test_workspaces/Makefile.mk`, for workspace names without
line break: the block of each test workspace, then the target
`all_test_workspaces`. -/
theorem testWorkspacesMakefile_lines (pathJoin : List String → String) (dir : String)
    (files : List FileInfo) (hW : ∀ W ∈ findTestWorkspaceNames files, OneLine W) :
    (mustWriteTestWorkspacesMakefile pathJoin dir files).lines
      = (findTestWorkspaceNames files).flatMap (testWorkspaceTargetBlock pathJoin dir)
        ++ [".PHONY: all_test_workspaces",
            "all_test_workspaces: "
              ++ stringsJoin ((findTestWorkspaceNames files).map testWorkspaceTarget) " ",
            ""] := by
  have hall : OneLine
      (stringsJoin ((findTestWorkspaceNames files).map testWorkspaceTarget) " ") :=
    oneLine_stringsJoin _ _ (by decide) (fun x hx => by
      obtain ⟨W, hWm, rfl⟩ := List.mem_map.1 hx
      exact oneLine_testWorkspaceTarget W (hW W hWm))
  have h1 : stringsSplit ".PHONY: all_test_workspaces" '\n'
      = [".PHONY: all_test_workspaces"] := by decide
  have h2 : stringsSplit ("all_test_workspaces: "
      ++ stringsJoin ((findTestWorkspaceNames files).map testWorkspaceTarget) " ") '\n'
      = ["all_test_workspaces: "
          ++ stringsJoin ((findTestWorkspaceNames files).map testWorkspaceTarget) " "] :=
    stringsSplit_of_oneLine _ (by simp +decide [oneLine_append, hall])
  unfold mustWriteTestWorkspacesMakefile
  dsimp only
  rw [foldl_writeTestWorkspaceRule pathJoin dir _ _ hW]
  simp only [lines_ln, lines_w, lines_empty, List.nil_append, h1, h2, List.append_assoc,
    List.cons_append]

theorem declaresTarget_testWorkspace (pathJoin : List String → String) (dir : String)
    (files : List FileInfo) (hW : ∀ W ∈ findTestWorkspaceNames files, OneLine W)
    (testWorkspace : String) (hmem : testWorkspace ∈ findTestWorkspaceNames files) :
    DeclaresTarget (mustWriteTestWorkspacesMakefile pathJoin dir files).lines
      (testWorkspaceTarget testWorkspace) := by
  have hblock : ∀ x ∈ testWorkspaceTargetBlock pathJoin dir testWorkspace,
      x ∈ (mustWriteTestWorkspacesMakefile pathJoin dir files).lines := by
    intro x hx
    rw [testWorkspacesMakefile_lines pathJoin dir files hW]
    apply List.mem_append_left
    exact List.mem_flatMap.2 ⟨testWorkspace, hmem, hx⟩
  constructor
  · exact hblock _ (by simp [testWorkspaceTargetBlock])
  · exact hblock _ (by simp [testWorkspaceTargetBlock])

/-- C11: for the same language list and the same listing of `test_workspaces`
(language names, rule names and workspace names without line break), the
example tasks and the test-workspace tasks of `presubmit.yml` name only
targets the Makefiles declare: the task of a language `L` on a CI platform
`P` is empty or is its header followed by the commands
`make {L.Name}_{R.Name}_example` of the rules `R` of `L.Rules` with
`doTestOnPlatform(L, R, P)`, and `mustWriteExamplesMakefile` declares the
target `{L.Name}_{R.Name}_example` of every rule of `L.Rules`; the
test-workspace task of `P` is its header followed by the commands
`make test_workspace_{W}` of the names `W` that `findTestWorkspaceNames`
returns, and `mustWriteTestWorkspacesMakefile` declares the target
`test_workspace_{W}` of each of them; these names are those of the entries
that are directories and start with neither `.` nor `bazel-`. -/
theorem presubmit_commands_name_makefile_targets
    (doTestOnPlatform : Language → Option Rule → String → Bool)
    (pathJoin : List String → String) (dir content : String)
    (files : List FileInfo) (languages : List Language)
    (hnames : ∀ l ∈ languages, OneLine l.Name ∧ ∀ r ∈ l.Rules, OneLine r.Name)
    (hfiles : ∀ f ∈ files, isTestWorkspace f = true → OneLine f.Name) :
    (mustWriteBazelCIPresubmitYml doTestOnPlatform content files languages).lines
      = ["---", "tasks:"]
        ++ ciPlatforms.flatMap (fun P => mainTaskHeader P
            ++ routeguideMatrix doTestOnPlatform (stringsSplit content '\n') languages P
            ++ [""])
        ++ languages.flatMap (fun lang =>
            ciPlatforms.flatMap (fun P => exampleTaskLines doTestOnPlatform lang P))
        ++ ciPlatforms.flatMap (fun P => testWorkspacesTaskLines files P)
    ∧ (∀ L ∈ languages, ∀ P ∈ ciPlatforms,
        (exampleTaskLines doTestOnPlatform L P = []
          ∨ exampleTaskLines doTestOnPlatform L P
            = exampleTaskHeader L P
              ++ (L.Rules.filter (fun R => doTestOnPlatform L (some R) P)).map
                  (fun R => "     - make " ++ exampleTarget L R)
              ++ [""])
        ∧ ∀ R ∈ L.Rules,
            DeclaresTarget (mustWriteExamplesMakefile pathJoin dir languages).lines
              (exampleTarget L R))
    ∧ (∀ P ∈ ciPlatforms,
        testWorkspacesTaskLines files P
          = testWorkspacesTaskHeader P
            ++ (findTestWorkspaceNames files).map
                (fun W => "     - make " ++ testWorkspaceTarget W)
            ++ [""])
    ∧ (∀ W ∈ findTestWorkspaceNames files,
        DeclaresTarget (mustWriteTestWorkspacesMakefile pathJoin dir files).lines
          (testWorkspaceTarget W))
    ∧ findTestWorkspaceNames files
      = (files.filter isTestWorkspace).map (fun f => f.Name) := by
  have hW : ∀ W ∈ findTestWorkspaceNames files, OneLine W := by
    intro W hWm
    rw [findTestWorkspaceNames_eq] at hWm
    obtain ⟨f, hf, rfl⟩ := List.mem_map.1 hWm
    obtain ⟨hfm, hft⟩ := List.mem_filter.1 hf
    exact hfiles f hfm hft
  refine ⟨presubmit_lines doTestOnPlatform content files languages, ?_, ?_, ?_,
    findTestWorkspaceNames_eq files⟩
  · intro L hL P hP
    refine ⟨?_, fun R hR => declaresTarget_example pathJoin dir languages hnames L hL R hR⟩
    have heq := exampleTaskLines_eq doTestOnPlatform L P hP (hnames L hL).1 (hnames L hL).2
    by_cases hc : platformHasCommand doTestOnPlatform L P L.Rules = true
    · right
      rw [heq, if_pos hc]
      simp only [make_example_eq]
    · left
      rw [heq, if_neg hc]
  · intro P hP
    exact testWorkspacesTaskLines_eq files P hP hW
  · intro W hWm
    exact declaresTarget_testWorkspace pathJoin dir files hW W hWm

/-- C11, witness: for the language go and a listing with two test
workspaces, the commands of the tasks on `ubuntu2204` and the targets the two
Makefiles declare. -/
theorem presubmit_commands_name_makefile_targets_witness :
    ((∀ l ∈ [exampleGo], OneLine l.Name ∧ ∀ r ∈ l.Rules, OneLine r.Name)
      ∧ (∀ f ∈ exampleListing, isTestWorkspace f = true → OneLine f.Name))
    ∧ testWorkspacesTaskLines exampleListing "ubuntu2204"
      = ["  ubuntu2204_test_workspaces:",
         "    name: test workspaces",
         "    platform: ubuntu2204",
         "    environment:",
         "      BAZEL_EXTRA_FLAGS: \"--cxxopt=-std=c++17 --host_cxxopt=-std=c++17\"",
         "    shell_commands:",
         "     - set -x",
         "     - make test_workspace_python3_grpc",
         "     - make test_workspace_shared_proto",
         ""]
    ∧ DeclaresTarget (mustWriteTestWorkspacesMakefile joinWithSlash "." exampleListing).lines
        "test_workspace_python3_grpc"
    ∧ DeclaresTarget (mustWriteExamplesMakefile joinWithSlash "." [exampleGo]).lines
        "go_go_proto_compile_example" := by
  have h1 : ∀ l ∈ [exampleGo], OneLine l.Name ∧ ∀ r ∈ l.Rules, OneLine r.Name := by decide
  have h2 : ∀ f ∈ exampleListing, isTestWorkspace f = true → OneLine f.Name := by decide
  have h := presubmit_commands_name_makefile_targets onUbuntuOnly joinWithSlash "." ""
    exampleListing [exampleGo] h1 h2
  refine ⟨⟨h1, h2⟩, ?_, ?_, ?_⟩
  · rw [h.2.2.1 "ubuntu2204" (by decide)]
    decide
  · exact h.2.2.2.1 "python3_grpc" (by decide)
  · exact (h.2.1 exampleGo (by decide) "ubuntu2204" (by decide)).2
      { Name := "go_proto_compile", IsTest := true } (by decide)

end Rulegen
